import Mathlib

/-!
# srx-editest chaincode: asset registry and open-trade sweep

A shallow embedding of `chaincode/marbles_chaincode.go` and the properties of its
asset index, asset matcher and open-trade sweep.

Go strings are Lean strings, Go slices are lists (a nil slice is the empty list),
`int` and `int64` are integers in the 64-bit range, and the ledger stub is an
explicit state passed through every operation.
-/

namespace Chaincode

/-! ## Integers -/

/-- Smallest value of a Go `int64` (and of `int` on 64-bit targets). -/
def minInt : Int := -9223372036854775808

/-- Largest value of a Go `int64` (and of `int` on 64-bit targets). -/
def maxInt : Int := 9223372036854775807

/-- Go `int` / `int64`: an integer within the 64-bit two's complement range. -/
abbrev GoInt := { i : Int // minInt ≤ i ∧ i ≤ maxInt }

/-- The zero value of an integer field. -/
def GoInt.zero : GoInt := ⟨0, by decide⟩

/-- Range check deciding whether a mathematical integer fits a Go `int64`. -/
def GoInt.ofInt? (i : Int) : Option GoInt :=
  if h : minInt ≤ i ∧ i ≤ maxInt then some ⟨i, h⟩ else none

/-- Saturating conversion: what `strconv.ParseInt` returns next to a range error. -/
def GoInt.clamp (i : Int) : GoInt :=
  if h : minInt ≤ i ∧ i ≤ maxInt then ⟨i, h⟩
  else if i < minInt then ⟨minInt, by decide⟩ else ⟨maxInt, by decide⟩

/-! ## Text helpers (`strings`, `strconv`) -/

/-- Lower-cases one character; letters outside ASCII are left as they are. -/
def lowerChar (c : Char) : Char :=
  if 65 ≤ c.toNat ∧ c.toNat ≤ 90 then Char.ofNat (c.toNat + 32) else c

/-- Model of `strings.ToLower`, on the ASCII letters. -/
def ToLower (s : String) : String := String.mk (s.data.map lowerChar)

/-- Value of a decimal digit character. -/
def digitVal (c : Char) : Option Nat :=
  if 48 ≤ c.toNat ∧ c.toNat ≤ 57 then some (c.toNat - 48) else none

/-- Reads a non-empty run of decimal digits as a number, most significant digit first. -/
def digitsVal : List Char → Nat → Option Nat
  | [], acc => some acc
  | c :: cs, acc =>
    match digitVal c with
    | some d => digitsVal cs (10 * acc + d)
    | none => none

/-- Model of `strconv.Atoi`: an optional sign followed by one or more decimal digits.
Returns the value and whether the conversion succeeded; on a syntax error the value is 0,
on a range error it is the nearest representable integer. -/
def Atoi (s : String) : GoInt × Bool :=
  let body (neg : Bool) (ds : List Char) : GoInt × Bool :=
    match ds with
    | [] => (GoInt.zero, false)
    | _ =>
      match digitsVal ds 0 with
      | none => (GoInt.zero, false)
      | some n =>
        let v : Int := if neg then -(n : Int) else (n : Int)
        (GoInt.clamp v, decide (minInt ≤ v ∧ v ≤ maxInt))
  match s.data with
  | '-' :: ds => body true ds
  | '+' :: ds => body false ds
  | ds => body false ds

/-- Model of `strconv.Itoa`. -/
def Itoa (i : GoInt) : String :=
  if i.val < 0 then "-" ++ Nat.repr i.val.natAbs else Nat.repr i.val.natAbs

/-! ## JSON documents (`encoding/json`) -/

/-- A JSON document. Number literals without fraction and exponent are kept by value,
all other number literals by their text. -/
inductive JVal where
  | null
  | bool (b : Bool)
  | int (i : Int)
  | real (lit : String)
  | str (s : String)
  | arr (items : List JVal)
  | obj (members : List (String × JVal))

/-- JSON insignificant whitespace. -/
def isWs (c : Char) : Bool :=
  c == ' ' || c == '\t' || c == '\n' || c == '\r'

/-- Drops leading whitespace. -/
def skipWs : List Char → List Char
  | [] => []
  | c :: cs => if isWs c then skipWs cs else c :: cs

/-- Value of a hexadecimal digit. -/
def hexVal (c : Char) : Option Nat :=
  let n := c.toNat
  if 48 ≤ n ∧ n ≤ 57 then some (n - 48)
  else if 97 ≤ n ∧ n ≤ 102 then some (n - 87)
  else if 65 ≤ n ∧ n ≤ 70 then some (n - 55)
  else none

/-- Reads the four hexadecimal digits of a `\u` escape. -/
def hex4 : List Char → Option (Nat × List Char)
  | a :: b :: c :: d :: rest =>
    match hexVal a, hexVal b, hexVal c, hexVal d with
    | some x, some y, some z, some w => some (((x * 16 + y) * 16 + z) * 16 + w, rest)
    | _, _, _, _ => none
  | _ => none

/-- Reads the rest of a string literal, the opening quote already consumed. `acc` holds the
characters read so far, last one first. -/
def parseStr : Nat → List Char → List Char → Option (String × List Char)
  | 0, _, _ => none
  | _ + 1, [], _ => none
  | fuel + 1, c :: cs, acc =>
    if c == '"' then some (String.mk acc.reverse, cs)
    else if c == '\\' then
      match cs with
      | [] => none
      | e :: rest =>
        if e == '"' then parseStr fuel rest ('"' :: acc)
        else if e == '\\' then parseStr fuel rest ('\\' :: acc)
        else if e == '/' then parseStr fuel rest ('/' :: acc)
        else if e == 'b' then parseStr fuel rest (Char.ofNat 8 :: acc)
        else if e == 'f' then parseStr fuel rest (Char.ofNat 12 :: acc)
        else if e == 'n' then parseStr fuel rest ('\n' :: acc)
        else if e == 'r' then parseStr fuel rest ('\r' :: acc)
        else if e == 't' then parseStr fuel rest ('\t' :: acc)
        else if e == 'u' then
          match hex4 rest with
          | none => none
          | some (u, rest1) =>
            if 55296 ≤ u ∧ u < 56320 then
              -- high surrogate: pairs with a following low surrogate escape
              match rest1 with
              | '\\' :: 'u' :: rest2 =>
                match hex4 rest2 with
                | some (l, rest3) =>
                  if 56320 ≤ l ∧ l < 57344 then
                    parseStr fuel rest3 (Char.ofNat (65536 + (u - 55296) * 1024 + (l - 56320)) :: acc)
                  else parseStr fuel rest1 (Char.ofNat 65533 :: acc)
                | none => parseStr fuel rest1 (Char.ofNat 65533 :: acc)
              | _ => parseStr fuel rest1 (Char.ofNat 65533 :: acc)
            else if 56320 ≤ u ∧ u < 57344 then parseStr fuel rest1 (Char.ofNat 65533 :: acc)
            else parseStr fuel rest1 (Char.ofNat u :: acc)
        else none
    else if c.toNat < 32 then none
    else parseStr fuel cs (c :: acc)

/-- Splits off the leading run of decimal digits. -/
def spanDigits : List Char → List Char × List Char
  | [] => ([], [])
  | c :: cs =>
    if (digitVal c).isSome then
      let r := spanDigits cs
      (c :: r.1, r.2)
    else ([], c :: cs)

/-- Reads a number literal: `-? (0 | [1-9][0-9]*) (. [0-9]+)? ([eE] [+-]? [0-9]+)?`. -/
def parseNum (cs : List Char) : Option (JVal × List Char) :=
  let (neg, cs1) := match cs with
    | '-' :: r => (true, r)
    | r => (false, r)
  let (ip, cs2) := spanDigits cs1
  match ip with
  | [] => none
  | d :: ds =>
    if d == '0' ∧ ds ≠ [] then none else
    let fracPart : Option (List Char × List Char) :=
      match cs2 with
      | '.' :: r =>
        let (fp, r1) := spanDigits r
        if fp = [] then none else some ('.' :: fp, r1)
      | r => some ([], r)
    match fracPart with
    | none => none
    | some (fp, cs3) =>
      let expPart : Option (List Char × List Char) :=
        match cs3 with
        | e :: r =>
          if e == 'e' ∨ e == 'E' then
            let (sg, r1) := match r with
              | '+' :: t => (['+'], t)
              | '-' :: t => (['-'], t)
              | t => ([], t)
            let (ep, r2) := spanDigits r1
            if ep = [] then none else some (e :: sg ++ ep, r2)
          else some ([], e :: r)
        | [] => some ([], [])
      match expPart with
      | none => none
      | some (ep, cs4) =>
        if fp = [] ∧ ep = [] then
          match digitsVal ip 0 with
          | some n => some (JVal.int (if neg then -(n : Int) else (n : Int)), cs4)
          | none => none
        else
          some (JVal.real (String.mk ((if neg then ['-'] else []) ++ ip ++ fp ++ ep)), cs4)

mutual
/-- Reads one JSON value. -/
def parseValue : Nat → List Char → Option (JVal × List Char)
  | 0, _ => none
  | fuel + 1, cs =>
    match skipWs cs with
    | [] => none
    | c :: r =>
      if c == '\x7b' then
        match skipWs r with
        | [] => none
        | c1 :: r1 => if c1 == '\x7d' then some (JVal.obj [], r1) else parseMembers fuel (c1 :: r1) []
      else if c == '[' then
        match skipWs r with
        | [] => none
        | c1 :: r1 => if c1 == ']' then some (JVal.arr [], r1) else parseElems fuel (c1 :: r1) []
      else if c == '"' then
        match parseStr (r.length + 1) r [] with
        | some (s, r1) => some (JVal.str s, r1)
        | none => none
      else if c == 't' then
        match r with
        | 'r' :: 'u' :: 'e' :: r1 => some (JVal.bool true, r1)
        | _ => none
      else if c == 'f' then
        match r with
        | 'a' :: 'l' :: 's' :: 'e' :: r1 => some (JVal.bool false, r1)
        | _ => none
      else if c == 'n' then
        match r with
        | 'u' :: 'l' :: 'l' :: r1 => some (JVal.null, r1)
        | _ => none
      else parseNum (c :: r)
/-- Reads the elements of an array up to the closing bracket. -/
def parseElems : Nat → List Char → List JVal → Option (JVal × List Char)
  | 0, _, _ => none
  | fuel + 1, cs, acc =>
    match parseValue fuel cs with
    | none => none
    | some (v, r) =>
      match skipWs r with
      | [] => none
      | c :: r1 =>
        if c == ',' then parseElems fuel r1 (v :: acc)
        else if c == ']' then some (JVal.arr (v :: acc).reverse, r1)
        else none
/-- Reads the members of an object up to the closing brace. -/
def parseMembers : Nat → List Char → List (String × JVal) → Option (JVal × List Char)
  | 0, _, _ => none
  | fuel + 1, cs, acc =>
    match skipWs cs with
    | [] => none
    | q :: r =>
      if q == '"' then
        match parseStr (r.length + 1) r [] with
        | none => none
        | some (k, r1) =>
          match skipWs r1 with
          | [] => none
          | c :: r2 =>
            if c == ':' then
              match parseValue fuel r2 with
              | none => none
              | some (v, r3) =>
                match skipWs r3 with
                | [] => none
                | c1 :: r4 =>
                  if c1 == ',' then parseMembers fuel r4 ((k, v) :: acc)
                  else if c1 == '\x7d' then some (JVal.obj ((k, v) :: acc).reverse, r4)
                  else none
            else none
      else none
end

/-- Model of the scanner of `encoding/json`: the document a text denotes, or `none` when the
text is not one well-formed JSON value surrounded by optional whitespace. -/
def parseJson (s : String) : Option JVal :=
  match parseValue (s.data.length + 1) s.data with
  | some (v, r) => if skipWs r = [] then some v else none
  | none => none

/-! ## Data model (lines 40-94) -/

/-- The asset record `Dendata` (lines 40-73): the 32 declared fields, each filled from the JSON
key of its tag, followed by the four fields that the code reads off a decoded record although
the declaration does not list them: `Name` (duplicate check, line 368) and `User`, `Color`,
`Size` (match test, line 607). Having no tag, these are filled from the key spelled like the
field name. -/
structure Dendata where
  Datsyu : String
  Sysdenno : String
  Tokcd : String
  Bmncd : String
  Hatdt : String
  Noudt : String
  Nouydt : String
  Bumcd : String
  Msecd : String
  Msenm : String
  Kentencd : String
  Kentennm : String
  Denno : String
  Denkb : String
  Binkb : String
  Sumsu : GoInt
  Sumgenkn : GoInt
  Sumurikn : GoInt
  Gyono : String
  Shocd : String
  Jancd : String
  Shonma : String
  Shonmb : String
  Untnm : String
  Irisu : GoInt
  Cassu : GoInt
  Gentk : GoInt
  Uritk : GoInt
  Suryo : GoInt
  Genkn : GoInt
  Urikn : GoInt
  Riykb : String
  Name : String
  User : String
  Color : String
  Size : GoInt
  deriving DecidableEq

/-- The zero value `Dendata{}`. -/
def Dendata.zero : Dendata :=
  { Datsyu := "", Sysdenno := "", Tokcd := "", Bmncd := "", Hatdt := "", Noudt := "", Nouydt := "", Bumcd := "", Msecd := "", Msenm := "",
    Kentencd := "", Kentennm := "", Denno := "", Denkb := "", Binkb := "",
    Sumsu := GoInt.zero, Sumgenkn := GoInt.zero, Sumurikn := GoInt.zero, Gyono := "", Shocd := "",
    Jancd := "", Shonma := "", Shonmb := "", Untnm := "", Irisu := GoInt.zero, Cassu := GoInt.zero,
    Gentk := GoInt.zero, Uritk := GoInt.zero, Suryo := GoInt.zero, Genkn := GoInt.zero, Urikn := GoInt.zero, Riykb := "",
    Name := "", User := "", Color := "", Size := GoInt.zero }

/-- The match pattern `Description` (lines 75-83): the seven declared fields, followed by the
two fields the code reads and writes although the declaration does not list them: `Color` and
`Size` (lines 463-464, 478-479, 691). -/
structure Description where
  Tokcd : String
  Bmncd : String
  Denno : String
  Hatdt : String
  Noudt : String
  Msecd : String
  Msenm : String
  Color : String
  Size : GoInt
  deriving DecidableEq

/-- The zero value `Description{}`. -/
def Description.zero : Description :=
  { Tokcd := "", Bmncd := "", Denno := "", Hatdt := "", Noudt := "", Msecd := "", Msenm := "",
    Color := "", Size := GoInt.zero }

/-- One open trade order (lines 85-90). -/
structure AnOpenTrade where
  User : String
  Timestamp : GoInt
  Want : Description
  Willing : List Description
  deriving DecidableEq

/-- The zero value `AnOpenTrade{}`. -/
def AnOpenTrade.zero : AnOpenTrade :=
  { User := "", Timestamp := GoInt.zero, Want := Description.zero, Willing := [] }

/-- The order book (lines 92-94). -/
structure AllTrades where
  OpenTrades : List AnOpenTrade
  deriving DecidableEq

/-! ## Decoding and encoding (`json.Unmarshal`, `json.Marshal`)

`json.Unmarshal` checks the whole text first and touches nothing when it is not well-formed.
On a well-formed text it fills what fits and leaves every other field as it was: a key is
matched with a field without regard to letter case, `null` changes nothing, and a value of the
wrong kind (or an integer out of range) leaves the field unchanged. -/

/-- Decoding into a string field. -/
def setStr (cur : String) : JVal → String
  | JVal.str s => s
  | _ => cur

/-- Decoding into an integer field. -/
def setInt (cur : GoInt) : JVal → GoInt
  | JVal.int i => (GoInt.ofInt? i).getD cur
  | _ => cur

/-- Decoding one object member into a `Dendata`. -/
def Dendata.setField (r : Dendata) (k : String) (v : JVal) : Dendata :=
  let key := ToLower k
  if key = "datsyu" then { r with Datsyu := setStr r.Datsyu v }
  else if key = "sysdenno" then { r with Sysdenno := setStr r.Sysdenno v }
  else if key = "tokcd" then { r with Tokcd := setStr r.Tokcd v }
  else if key = "bmncd" then { r with Bmncd := setStr r.Bmncd v }
  else if key = "hatdt" then { r with Hatdt := setStr r.Hatdt v }
  else if key = "noudt" then { r with Noudt := setStr r.Noudt v }
  else if key = "nouydt" then { r with Nouydt := setStr r.Nouydt v }
  else if key = "bumcd" then { r with Bumcd := setStr r.Bumcd v }
  else if key = "msecd" then { r with Msecd := setStr r.Msecd v }
  else if key = "msenm" then { r with Msenm := setStr r.Msenm v }
  else if key = "kentencd" then { r with Kentencd := setStr r.Kentencd v }
  else if key = "kentennm" then { r with Kentennm := setStr r.Kentennm v }
  else if key = "denno" then { r with Denno := setStr r.Denno v }
  else if key = "denkb" then { r with Denkb := setStr r.Denkb v }
  else if key = "binkb" then { r with Binkb := setStr r.Binkb v }
  else if key = "sumsu" then { r with Sumsu := setInt r.Sumsu v }
  else if key = "sumgenkn" then { r with Sumgenkn := setInt r.Sumgenkn v }
  else if key = "sumurikn" then { r with Sumurikn := setInt r.Sumurikn v }
  else if key = "gyono" then { r with Gyono := setStr r.Gyono v }
  else if key = "shocd" then { r with Shocd := setStr r.Shocd v }
  else if key = "jancd" then { r with Jancd := setStr r.Jancd v }
  else if key = "shonma" then { r with Shonma := setStr r.Shonma v }
  else if key = "shonmb" then { r with Shonmb := setStr r.Shonmb v }
  else if key = "untnm" then { r with Untnm := setStr r.Untnm v }
  else if key = "irisu" then { r with Irisu := setInt r.Irisu v }
  else if key = "cassu" then { r with Cassu := setInt r.Cassu v }
  else if key = "gentk" then { r with Gentk := setInt r.Gentk v }
  else if key = "uritk" then { r with Uritk := setInt r.Uritk v }
  else if key = "suryo" then { r with Suryo := setInt r.Suryo v }
  else if key = "genkn" then { r with Genkn := setInt r.Genkn v }
  else if key = "urikn" then { r with Urikn := setInt r.Urikn v }
  else if key = "riykb" then { r with Riykb := setStr r.Riykb v }
  else if key = "name" then { r with Name := setStr r.Name v }
  else if key = "user" then { r with User := setStr r.User v }
  else if key = "color" then { r with Color := setStr r.Color v }
  else if key = "size" then { r with Size := setInt r.Size v }
  else r

/-- Decoding a document into a `Dendata` that currently holds `cur`. -/
def decodeDendata (cur : Dendata) : JVal → Dendata
  | JVal.obj ms => ms.foldl (fun r kv => r.setField kv.1 kv.2) cur
  | _ => cur

/-- Decoding one object member into a `Description`. -/
def Description.setField (d : Description) (k : String) (v : JVal) : Description :=
  let key := ToLower k
  if key = "tokcd" then { d with Tokcd := setStr d.Tokcd v }
  else if key = "bmncd" then { d with Bmncd := setStr d.Bmncd v }
  else if key = "denno" then { d with Denno := setStr d.Denno v }
  else if key = "hatdt" then { d with Hatdt := setStr d.Hatdt v }
  else if key = "noudt" then { d with Noudt := setStr d.Noudt v }
  else if key = "msecd" then { d with Msecd := setStr d.Msecd v }
  else if key = "msenm" then { d with Msenm := setStr d.Msenm v }
  else if key = "color" then { d with Color := setStr d.Color v }
  else if key = "size" then { d with Size := setInt d.Size v }
  else d

/-- Decoding a document into a `Description` that currently holds `cur`. -/
def decodeDescription (cur : Description) : JVal → Description
  | JVal.obj ms => ms.foldl (fun d kv => d.setField kv.1 kv.2) cur
  | _ => cur

/-- Decoding into a `[]Description` field: an array gives one fresh element per item. -/
def setDescriptions (cur : List Description) : JVal → List Description
  | JVal.arr items => items.map (decodeDescription Description.zero)
  | JVal.null => []
  | _ => cur

/-- Decoding one object member into an `AnOpenTrade`. -/
def AnOpenTrade.setField (o : AnOpenTrade) (k : String) (v : JVal) : AnOpenTrade :=
  let key := ToLower k
  if key = "user" then { o with User := setStr o.User v }
  else if key = "timestamp" then { o with Timestamp := setInt o.Timestamp v }
  else if key = "want" then { o with Want := decodeDescription o.Want v }
  else if key = "willing" then { o with Willing := setDescriptions o.Willing v }
  else o

/-- Decoding a document into an `AnOpenTrade` that currently holds `cur`. -/
def decodeTrade (cur : AnOpenTrade) : JVal → AnOpenTrade
  | JVal.obj ms => ms.foldl (fun o kv => o.setField kv.1 kv.2) cur
  | _ => cur

/-- Decoding into a `[]AnOpenTrade` field. -/
def setTrades (cur : List AnOpenTrade) : JVal → List AnOpenTrade
  | JVal.arr items => items.map (decodeTrade AnOpenTrade.zero)
  | JVal.null => []
  | _ => cur

/-- Decoding one object member into an `AllTrades`. -/
def AllTrades.setField (t : AllTrades) (k : String) (v : JVal) : AllTrades :=
  if ToLower k = "open_trades" then { t with OpenTrades := setTrades t.OpenTrades v } else t

/-- Decoding a document into an `AllTrades` that currently holds `cur`. -/
def decodeTrades (cur : AllTrades) : JVal → AllTrades
  | JVal.obj ms => ms.foldl (fun t kv => t.setField kv.1 kv.2) cur
  | _ => cur

/-- Decoding a document into a `[]string` that currently holds `cur`: an element that is not a
string is left at its zero value. -/
def decodeIndex (cur : List String) : JVal → List String
  | JVal.arr items => items.map (setStr "")
  | JVal.null => []
  | _ => cur

/-- The document `json.Marshal` writes for a `[]string`. -/
def encodeIndex (ids : List String) : JVal := JVal.arr (ids.map JVal.str)

/-- The document `json.Marshal` writes for a `Description`. -/
def encodeDescription (d : Description) : JVal :=
  JVal.obj [("tokcd", JVal.str d.Tokcd), ("bmncd", JVal.str d.Bmncd), ("denno", JVal.str d.Denno),
    ("hatdt", JVal.str d.Hatdt), ("noudt", JVal.str d.Noudt), ("msecd", JVal.str d.Msecd),
    ("msenm", JVal.str d.Msenm), ("Color", JVal.str d.Color), ("Size", JVal.int d.Size.val)]

/-- The document `json.Marshal` writes for an `AnOpenTrade`. -/
def encodeTrade (o : AnOpenTrade) : JVal :=
  JVal.obj [("user", JVal.str o.User), ("timestamp", JVal.int o.Timestamp.val),
    ("want", encodeDescription o.Want), ("willing", JVal.arr (o.Willing.map encodeDescription))]

/-- The document `json.Marshal` writes for an `AllTrades`. -/
def encodeTrades (t : AllTrades) : JVal :=
  JVal.obj [("open_trades", JVal.arr (t.OpenTrades.map encodeTrade))]

/-! ## Ledger values and the stub (`shim.ChaincodeStubInterface`) -/

/-- A byte string held by the ledger, kept by how it was made: `text s` is `[]byte(s)`, and
`doc v` is the output of `json.Marshal` for the document `v`, from which `json.Unmarshal`
reads `v` back. A nil and an empty slice are both the empty list: `json.Marshal` writes
`null` for the one and `[]` for the other, and both decode to a slice of length 0. -/
inductive Bytes where
  | text (s : String)
  | doc (v : JVal)

/-- The document a byte string denotes, if it is well-formed JSON. -/
def Bytes.json : Bytes → Option JVal
  | Bytes.text s => parseJson s
  | Bytes.doc v => some v

/-- Model of `json.Unmarshal(b, &res)` for a fresh `res := Dendata{}`. -/
def unmarshalDendata (b : Bytes) : Dendata :=
  match b.json with
  | some v => decodeDendata Dendata.zero v
  | none => Dendata.zero

/-- Model of `json.Unmarshal(b, &dendataIndex)` for a fresh `var dendataIndex []string`. -/
def unmarshalIndex (b : Bytes) : List String :=
  match b.json with
  | some v => decodeIndex [] v
  | none => []

/-- Model of `json.Unmarshal(b, &trades)` for a fresh `var trades AllTrades`. -/
def unmarshalTrades (b : Bytes) : AllTrades :=
  match b.json with
  | some v => decodeTrades { OpenTrades := [] } v
  | none => { OpenTrades := [] }

/-- A Go `error`: `none` is `nil`. -/
abbrev GoError := Option String

/-- The ledger as one invocation sees it: the key/value state, which calls the ledger refuses
(per key, with the error it gives), and the keys of the `PutState` calls made so far, oldest
first. A read sees the writes and deletes made earlier in the same invocation. -/
structure Stub where
  state : String → Option Bytes
  getErr : String → GoError
  putErr : String → GoError
  delErr : String → GoError
  puts : List String

/-- The bytes under a key; a key that holds nothing reads as the empty byte string. -/
def Stub.bytesAt (stub : Stub) (key : String) : Bytes :=
  (stub.state key).getD (Bytes.text "")

/-- Model of `stub.GetState(key)`. -/
def Stub.GetState (stub : Stub) (key : String) : Bytes × GoError :=
  match stub.getErr key with
  | some e => (Bytes.text "", some e)
  | none => (stub.bytesAt key, none)

/-- Model of `stub.PutState(key, value)`. -/
def Stub.PutState (stub : Stub) (key : String) (value : Bytes) : GoError × Stub :=
  match stub.putErr key with
  | some e => (some e, { stub with puts := stub.puts ++ [key] })
  | none =>
    (none, { stub with
      state := fun k => if k = key then some value else stub.state k
      puts := stub.puts ++ [key] })

/-- Model of `stub.DelState(key)`. -/
def Stub.DelState (stub : Stub) (key : String) : GoError × Stub :=
  match stub.delErr key with
  | some e => (some e, stub)
  | none => (none, { stub with state := fun k => if k = key then none else stub.state k })

/-- Key of the asset index (line 37). -/
def dendataIndexStr : String := "_dendataindex"

/-- Key of the order book (line 38). -/
def openTradesStr : String := "_opentrades"

/-! ## Operations -/

/-- A ledger that holds nothing and refuses nothing. -/
def Stub.empty : Stub :=
  { state := fun _ => none, getErr := fun _ => none, putErr := fun _ => none,
    delErr := fun _ => none, puts := [] }

/-- Model of `Init` (lines 109-144): stores the test variable and resets the asset index and
the order book. -/
def Init (stub : Stub) (args : List String) : GoError × Stub :=
  if args.length ≠ 1 then (some "Incorrect number of arguments. Expecting 1", stub) else
  let (Aval, ok) := Atoi (args.getD 0 "")
  if !ok then (some "Expecting integer value for asset holding", stub) else
  let (err, stub1) := stub.PutState "abc" (Bytes.text (Itoa Aval))
  if err.isSome then (err, stub1) else
  let (err, stub2) := stub1.PutState dendataIndexStr (Bytes.doc (encodeIndex []))
  if err.isSome then (err, stub2) else
  let (err, stub3) := stub2.PutState openTradesStr (Bytes.doc (encodeTrades { OpenTrades := [] }))
  if err.isSome then (err, stub3) else
  (none, stub3)

/-- The loop of `Delete` (lines 248-258): ranges over the index as read, `i` being the current
position and the last argument the entries from `i` on; at the first entry equal to `sysdenno`
it cuts that position out and stops. -/
def deleteLoop (sysdenno : String) (dendataIndex : List String) : Nat → List String → List String
  | _, [] => dendataIndex
  | i, val :: rest =>
    if val = sysdenno then dendataIndex.take i ++ dendataIndex.drop (i + 1)
    else deleteLoop sysdenno dendataIndex (i + 1) rest

/-- Model of `Delete` (lines 228-262). The result of the last `PutState` is assigned to `err`
and not looked at (lines 260-261). -/
def Delete (stub : Stub) (args : List String) : GoError × Stub :=
  if args.length ≠ 1 then (some "Incorrect number of arguments. Expecting 1", stub) else
  let sysdenno := args.getD 0 ""
  let (err, stub1) := stub.DelState sysdenno
  if err.isSome then (some "Failed to delete state", stub1) else
  let (dendataAsBytes, err) := stub1.GetState dendataIndexStr
  if err.isSome then (some "Failed to get dendata index", stub1) else
  let dendataIndex := unmarshalIndex dendataAsBytes
  let dendataIndex1 := deleteLoop sysdenno dendataIndex 0 dendataIndex
  let (_, stub2) := stub1.PutState dendataIndexStr (Bytes.doc (encodeIndex dendataIndex1))
  (none, stub2)

/-- The JSON text `init_dendata` builds by hand (lines 376-382), `args` being its 32
arguments. Each numeric argument goes through `strconv.Atoi`, whose error is not looked at
(lines 332-347), and `strconv.Itoa`; `riykb` is assigned `args[31]` at line 348 and then
`args[30]` at line 352, so the text carries `args[30]`. The text is copied piece by piece,
the line breaks and tabs inside the raw string literals included. -/
def dendataJson (args : List String) : String :=
  let a := fun (i : Nat) => args.getD i ""
  "\x7b\"datsyu\": \"" ++ a 0 ++ "\", \"sysdenno\": \"" ++ a 1 ++ "\", \"tokcd\": \"" ++ a 2 ++
    "\", \"bmncd\": \"" ++ a 3 ++ "\", \"hatdt\": \"" ++ a 4 ++ "\", \n\t\t\t\"noudt\": \"" ++
    a 5 ++ "\", \"nouydt\": \"" ++ a 6 ++ "\", \"bumcd\": \"" ++ a 7 ++ "\", \"msecd\": \"" ++
    a 8 ++ "\", \"msenm\": \"" ++ a 9 ++ "\", \n\t\t\t\"kentencd\": \"" ++ a 10 ++
    "\", \"kentennm\": \"" ++ a 11 ++ "\", \"denno\": \"" ++ a 12 ++ "\", \"denkb\": \"" ++
    a 13 ++ "\", \"binkb\": \"" ++ a 14 ++ "\", \n\t\t\t\"sumsu\": " ++ Itoa (Atoi (a 15)).1 ++
    ", \"sumgenkn\": " ++ Itoa (Atoi (a 16)).1 ++ ", \"sumurikn\": " ++ Itoa (Atoi (a 17)).1 ++
    ", \"gyono\": \"" ++ a 18 ++ "\",, \"shocd\": \"" ++ a 19 ++ "\", \n\t\t\t\"jancd\": \"" ++
    a 20 ++ "\", \"shonma\": \"" ++ a 21 ++ "\", \"shonmb\": \"" ++ a 22 ++
    "\", \"untnm\": \"" ++ a 23 ++ "\", \"irisu\": " ++ Itoa (Atoi (a 24)).1 ++
    ", \n\t\t\t\"cassu\": " ++ Itoa (Atoi (a 25)).1 ++ ", \"gentk\": " ++ Itoa (Atoi (a 26)).1 ++
    ", \"uritk\": " ++ Itoa (Atoi (a 27)).1 ++ ", \"suryo\": " ++ Itoa (Atoi (a 28)).1 ++
    ", \n\t\t\t\"genkn\": " ++ Itoa (Atoi (a 29)).1 ++ ", \"urikn\": " ++ Itoa (Atoi (a 30)).1 ++
    ", \"riykb\": \"" ++ a 30 ++ "\"\x7d"

/-- Model of `init_dendata` (lines 288-404). The duplicate check decodes the bytes under the
identifier and compares the decoded `Name` with the identifier (lines 366-368). The result of
the last `PutState` is assigned to `err` and not looked at (lines 400-403). -/
def init_dendata (stub : Stub) (args : List String) : GoError × Stub :=
  if args.length ≠ 32 then (some "Incorrect number of arguments. Expecting 4", stub) else
  if (args.getD 0 "").length ≤ 0 then (some "1st argument must be a non-empty string", stub) else
  if (args.getD 1 "").length ≤ 0 then (some "2nd argument must be a non-empty string", stub) else
  if (args.getD 18 "").length ≤ 0 then (some "18th argument must be a non-empty string", stub) else
  if (args.getD 19 "").length ≤ 0 then (some "19th argument must be a non-empty string", stub) else
  let sysdenno := args.getD 1 ""
  let (dendataAsBytes, err) := stub.GetState sysdenno
  if err.isSome then (some "Failed to get dendata sysdenno", stub) else
  let res := unmarshalDendata dendataAsBytes
  if res.Name = sysdenno then (some "This dendata arleady exists", stub) else
  let str := dendataJson args
  let (err, stub1) := stub.PutState sysdenno (Bytes.text str)
  if err.isSome then (err, stub1) else
  let (dendataAsBytes, err) := stub1.GetState dendataIndexStr
  if err.isSome then (some "Failed to get dendata index", stub1) else
  let dendataIndex := unmarshalIndex dendataAsBytes
  let dendataIndex1 := dendataIndex ++ [sysdenno]
  let (_, stub2) := stub1.PutState dendataIndexStr (Bytes.doc (encodeIndex dendataIndex1))
  (none, stub2)

/-- The match test of `findDendata4Trade` (line 607). -/
def matchTest (res : Dendata) (user color : String) (size : GoInt) : Bool :=
  ToLower res.User == ToLower user && ToLower res.Color == ToLower color && res.Size == size

/-- The loop of `findDendata4Trade` (lines 595-612) over the identifiers of the index. -/
def findLoop (stub : Stub) (user color : String) (size : GoInt) : List String → Dendata × GoError
  | [] => (Dendata.zero, some "Did not find dendata to use in this trade")
  | id :: rest =>
    let (dendataAsBytes, err) := stub.GetState id
    if err.isSome then (Dendata.zero, some "Failed to get dendata") else
    let res := unmarshalDendata dendataAsBytes
    if matchTest res user color size then (res, none)
    else findLoop stub user color size rest

/-- Model of `findDendata4Trade` (lines 582-616; the source keeps the function as a comment
block, and `cleanTrades` calls it at line 691). -/
def findDendata4Trade (stub : Stub) (user color : String) (size : GoInt) : Dendata × GoError :=
  let (dendataAsBytes, err) := stub.GetState dendataIndexStr
  if err.isSome then (Dendata.zero, some "Failed to get dendata index") else
  let dendataIndex := unmarshalIndex dendataAsBytes
  findLoop stub user color size dendataIndex

/-- The element `l[x]` of a slice; `none` stands for the index-out-of-range panic. -/
def elemAt {α : Type} (l : List α) (x : Int) : Option α :=
  if 0 ≤ x then l[x.toNat]? else none

/-- The slice `append(l[:x], l[x+1:]...)`. -/
def removeAt {α : Type} (l : List α) (x : Int) : List α :=
  l.take x.toNat ++ l.drop (x.toNat + 1)

/-- The inner loop of `cleanTrades` (lines 689-706) on the willing list of one trade of
`user`, from counter `x` on. `none` stands for a run that does not end normally: an index out
of range, or more iterations than the first argument allows. -/
def willingLoop (stub : Stub) (user : String) :
    Nat → List Description → Int → Bool → Option (List Description × Bool)
  | 0, _, _, _ => none
  | fuel + 1, willing, x, didWork =>
    if x < willing.length then
      match elemAt willing x with
      | none => none
      | some alt =>
        let e := (findDendata4Trade stub user alt.Color alt.Size).2
        let willing1 := if e.isSome then removeAt willing x else willing
        let didWork1 := if e.isSome then true else didWork
        let x1 := if e.isSome then x - 1 else x
        let x2 := x1 + 1
        if x2 ≥ willing1.length then some (willing1, didWork1)
        else willingLoop stub user fuel willing1 x2 didWork1
    else some (willing, didWork)

/-- The outer loop of `cleanTrades` (lines 685-720) from counter `i` on. `none` as in
`willingLoop`. -/
def tradesLoop (stub : Stub) :
    Nat → List AnOpenTrade → Int → Bool → Option (List AnOpenTrade × Bool)
  | 0, _, _, _ => none
  | fuel + 1, trades, i, didWork =>
    if i < trades.length then
      match elemAt trades i with
      | none => none
      | some t =>
        match willingLoop stub t.User (t.Willing.length + 1) t.Willing 0 didWork with
        | none => none
        | some (willing, didWork1) =>
          let trades1 := trades.set i.toNat { t with Willing := willing }
          let empty := decide (willing.length = 0)
          let trades2 := if empty then removeAt trades1 i else trades1
          let didWork2 := if empty then true else didWork1
          let i1 := if empty then i - 1 else i
          let i2 := i1 + 1
          if i2 ≥ trades2.length then some (trades2, didWork2)
          else tradesLoop stub fuel trades2 i2 didWork2
    else some (trades, didWork)

/-- Model of `cleanTrades` (lines 672-735). `none` as in `willingLoop`. -/
def cleanTrades (stub : Stub) : Option (GoError × Stub) :=
  let (tradesAsBytes, err) := stub.GetState openTradesStr
  if err.isSome then some (some "Failed to get opentrades", stub) else
  let trades := unmarshalTrades tradesAsBytes
  match tradesLoop stub (trades.OpenTrades.length + 1) trades.OpenTrades 0 false with
  | none => none
  | some (openTrades, didWork) =>
    if didWork then
      let (err, stub1) := stub.PutState openTradesStr
        (Bytes.doc (encodeTrades { OpenTrades := openTrades }))
      if err.isSome then some (err, stub1) else some (none, stub1)
    else some (none, stub)

/-- Model of `Write` (lines 267-283). -/
def Write (stub : Stub) (args : List String) : GoError × Stub :=
  if args.length ≠ 2 then
    (some "Incorrect number of arguments. Expecting 2. sysdenno of the variable and value to set",
      stub)
  else
  let sysdenno := args.getD 0 ""
  let value := args.getD 1 ""
  let (err, stub1) := stub.PutState sysdenno (Bytes.text value)
  if err.isSome then (err, stub1) else
  (none, stub1)

/-- Model of `Invoke` (lines 157-187). For `delete` the sweep runs after `Delete` whatever
`Delete` returned, and the result of the sweep is not looked at (lines 164-166). `none` as in
`willingLoop`. -/
def Invoke (stub : Stub) (function : String) (args : List String) : Option (GoError × Stub) :=
  if function = "init" then some (Init stub args)
  else if function = "delete" then
    let (err, stub1) := Delete stub args
    match cleanTrades stub1 with
    | none => none
    | some (_, stub2) => some (err, stub2)
  else if function = "write" then some (Write stub args)
  else if function = "init_dendata" then some (init_dendata stub args)
  else some (some "Received unknown function invocation", stub)

/-- Model of `strconv.ParseInt(s, 10, 64)`: `strconv.Atoi` is `ParseInt(s, 10, 0)`, and `int`
has 64 bits. -/
def ParseInt (s : String) : GoInt × Bool := Atoi s

/-- The loop of `remove_trade` (lines 651-663): ranges over the open trades as read, `i` being
the current position and the last argument the trades from `i` on; at the first trade whose
timestamp is the one looked for it cuts that position out, writes the order book and stops. -/
def removeLoop (stub : Stub) (timestamp : GoInt) (openTrades : List AnOpenTrade) :
    Nat → List AnOpenTrade → GoError × Stub
  | _, [] => (none, stub)
  | i, t :: rest =>
    if t.Timestamp = timestamp then
      let openTrades1 := openTrades.take i ++ openTrades.drop (i + 1)
      let (err, stub1) := stub.PutState openTradesStr
        (Bytes.doc (encodeTrades { OpenTrades := openTrades1 }))
      if err.isSome then (err, stub1) else (none, stub1)
    else removeLoop stub timestamp openTrades (i + 1) rest

/-- Model of `remove_trade` (lines 628-667). -/
def remove_trade (stub : Stub) (args : List String) : GoError × Stub :=
  if args.length < 1 then (some "Incorrect number of arguments. Expecting 1", stub) else
  let (timestamp, ok) := ParseInt (args.getD 0 "")
  if !ok then (some "1st argument must be a numeric string", stub) else
  let (tradesAsBytes, err) := stub.GetState openTradesStr
  if err.isSome then (some "Failed to get opentrades", stub) else
  let trades := unmarshalTrades tradesAsBytes
  removeLoop stub timestamp trades.OpenTrades 0 trades.OpenTrades

/-- The loop of `open_trade` (lines 469-487) from counter `i` on, `willing` being
`open.Willing` so far. `args[i + 1]` and `args[i]` are read as the source reads them, and the
counter is advanced twice per round (lines 486 and 469). The result of each `PutState` of
`_debug2` is assigned to `err` and not looked at. `none` as in `willingLoop`. -/
def openLoop (args : List String) :
    Nat → Nat → List Description → Stub → Option (GoError × List Description × Stub)
  | 0, _, _, _ => none
  | fuel + 1, i, willing, stub =>
    if i < args.length then
      match args[i + 1]? with
      | none => none
      | some a1 =>
        let (will_size, ok) := Atoi a1
        if !ok then some (some ("is not a numeric string " ++ a1), willing, stub) else
        match args[i]? with
        | none => none
        | some a0 =>
          let trade_away := { Description.zero with Color := a0, Size := will_size }
          let (_, stub1) := stub.PutState "_debug2" (Bytes.doc (encodeDescription trade_away))
          openLoop args fuel (i + 1 + 1) (willing ++ [trade_away]) stub1
    else some (none, willing, stub)

/-- Model of `open_trade` (lines 441-506). `now` is what `makeTimestamp()` returns (line 462).
The result of the `PutState` of `_debug1` is assigned to `err` and not looked at. `none` as in
`willingLoop`. -/
def open_trade (stub : Stub) (args : List String) (now : GoInt) : Option (GoError × Stub) :=
  if args.length < 5 then some (some "Incorrect number of arguments. Expecting like 5?", stub)
  else if args.length % 2 = 0 then
    some (some "Incorrect number of arguments. Expecting an odd number", stub)
  else
  let (size1, ok) := Atoi (args.getD 2 "")
  if !ok then some (some "3rd argument must be a numeric string", stub) else
  let open0 : AnOpenTrade :=
    { User := args.getD 0 "", Timestamp := now,
      Want := { Description.zero with Color := args.getD 1 "", Size := size1 }, Willing := [] }
  let (_, stub1) := stub.PutState "_debug1" (Bytes.doc (encodeTrade open0))
  match openLoop args (args.length + 1) 3 [] stub1 with
  | none => none
  | some (some e, _, stub2) => some (some e, stub2)
  | some (none, willing, stub2) =>
    let open1 := { open0 with Willing := willing }
    let (tradesAsBytes, err) := stub2.GetState openTradesStr
    if err.isSome then some (some "Failed to get opentrades", stub2) else
    let trades := unmarshalTrades tradesAsBytes
    let openTrades1 := trades.OpenTrades ++ [open1]
    let (err, stub3) := stub2.PutState openTradesStr
      (Bytes.doc (encodeTrades { OpenTrades := openTrades1 }))
    if err.isSome then some (err, stub3) else
    some (none, stub3)

/-! ## Views of the ledger and reference definitions -/

/-- The asset index as the operations read it: the bytes under `_dendataindex`, decoded. -/
def indexOf (stub : Stub) : List String :=
  unmarshalIndex (stub.bytesAt dendataIndexStr)

/-- The record the matcher sees under an identifier: the bytes under it, decoded. -/
def recordAt (stub : Stub) (id : String) : Dendata :=
  unmarshalDendata (stub.bytesAt id)

/-- The order book as the operations read it: the bytes under `_opentrades`, decoded. -/
def orderBook (stub : Stub) : List AnOpenTrade :=
  (unmarshalTrades (stub.bytesAt openTradesStr)).OpenTrades

/-- Whether `findDendata4Trade` finds an asset of `user` for an alternative, i.e. returns a
nil error. -/
def finds (stub : Stub) (user : String) (alt : Description) : Bool :=
  (findDendata4Trade stub user alt.Color alt.Size).2.isNone

/-- Reference sweep of one offer, in the words of the specification: the willing list is
replaced by the sub-list, in original order, of the alternatives for which an asset is found;
`User`, `Timestamp` and `Want` stay. -/
def sweepOffer (stub : Stub) (o : AnOpenTrade) : AnOpenTrade :=
  { o with Willing := o.Willing.filter (finds stub o.User) }

/-- Reference result of the sweep, in the words of the specification: every offer is swept,
then every offer whose willing list has become empty is dropped, the others keeping their
relative order. -/
def sweepReference (stub : Stub) (book : List AnOpenTrade) : List AnOpenTrade :=
  (book.map (sweepOffer stub)).filter (fun o => !o.Willing.isEmpty)

/-- The sweep has something to remove from an offer: an alternative for which no asset is
found, or the whole offer because its willing list is empty. -/
def offerStale (stub : Stub) (o : AnOpenTrade) : Prop :=
  o.Willing = [] ∨ ∃ alt ∈ o.Willing, finds stub o.User alt = false

/-- What the sweep does to one offer makes it set `didWork`: it removes an alternative, or it
finds the willing list empty after the inner loop and removes the offer. -/
def offerTouched (stub : Stub) (o : AnOpenTrade) : Bool :=
  o.Willing.any (fun alt => !finds stub o.User alt) ||
    (o.Willing.filter (finds stub o.User)).isEmpty

/-- The alternative number `j` (from 0) that the arguments of `open_trade` spell out: colour
`args[3+2j]` and size `args[4+2j]`. -/
def altOf (args : List String) (j : Nat) : Description :=
  { Description.zero with
    Color := args.getD (3 + 2 * j) "", Size := (Atoi (args.getD (4 + 2 * j) "")).1 }

/-- The offer that the arguments of `open_trade` spell out, with the timestamp `now`. -/
def offerOf (args : List String) (now : GoInt) : AnOpenTrade :=
  { User := args.getD 0 "", Timestamp := now,
    Want := { Description.zero with
      Color := args.getD 1 "", Size := (Atoi (args.getD 2 "")).1 },
    Willing := (List.range ((args.length - 3) / 2)).map (altOf args) }

/-- The second ledger differs from the first at most under the two debug keys of `open_trade`
and in the log of `PutState` calls. -/
def agreeOffDebug (stub stub1 : Stub) : Prop :=
  stub1.getErr = stub.getErr ∧ stub1.putErr = stub.putErr ∧
    ∀ k, k ≠ "_debug1" → k ≠ "_debug2" → stub1.state k = stub.state k

/-- The keys `Init` writes; they hold the test variable, the index and the order book. -/
def systemKeys : List String := ["abc", dendataIndexStr, openTradesStr]

/-- A key holds a live asset record: it holds a value and is none of the keys `Init` writes. -/
def holdsAsset (stub : Stub) (key : String) : Prop :=
  (stub.state key).isSome = true ∧ key ∉ systemKeys

/-- Index integrity, in the words of the specification: the identifiers of the index are
exactly the keys that hold a live asset record, and none is listed twice. -/
def IndexIntegrity (stub : Stub) : Prop :=
  (∀ key, key ∈ indexOf stub ↔ holdsAsset stub key) ∧ (indexOf stub).Nodup

/-- A create or delete request with its argument list. -/
inductive Op where
  | create (args : List String)
  | delete (args : List String)

/-- The ledger after one request. -/
def applyOp (stub : Stub) : Op → Stub
  | Op.create args => (init_dendata stub args).2
  | Op.delete args => (Delete stub args).2

/-- The ledger after a sequence of requests, first one first. -/
def run (stub : Stub) (ops : List Op) : Stub :=
  ops.foldl applyOp stub

/-- A freshly initialised ledger: `Init` on a ledger that holds nothing. -/
def freshLedger : Stub := (Init Stub.empty ["0"]).2

/-! ## Example ledgers -/

/-- The alternative red, 16. -/
def red16 : Description := { Description.zero with Color := "red", Size := ⟨16, by decide⟩ }

/-- The alternative blue, 1. -/
def blue1 : Description := { Description.zero with Color := "blue", Size := ⟨1, by decide⟩ }

/-- The description blue, 16. -/
def blue16 : Description := { Description.zero with Color := "blue", Size := ⟨16, by decide⟩ }

/-- An open trade of bob: wants blue, 16 and is willing to give red, 16 or blue, 1. -/
def bobsOffer : AnOpenTrade :=
  { User := "bob", Timestamp := ⟨1, by decide⟩, Want := blue16, Willing := [red16, blue1] }

/-- A ledger with one asset `m1` (red, 16, of bob), written as text the way `Write` stores a
value, the index listing it, and the order book holding `bobsOffer`. -/
def exampleLedger : Stub :=
  { Stub.empty with
    state := fun k =>
      if k = dendataIndexStr then some (Bytes.doc (encodeIndex ["m1"]))
      else if k = "m1" then
        some (Bytes.text
          "\x7b\"name\": \"m1\", \"color\": \"red\", \"size\": 16, \"user\": \"bob\"\x7d")
      else if k = openTradesStr then
        some (Bytes.doc (encodeTrades { OpenTrades := [bobsOffer] }))
      else none }

/-- A ledger as two `Write` requests leave it: the index lists the key of the order book, and
the text under that key reads both as an asset of bob (red, 16) and as an order book with one
open trade of bob willing to give red, 16 or blue, 1. -/
def tangledLedger : Stub :=
  { Stub.empty with
    state := fun k =>
      if k = dendataIndexStr then some (Bytes.text "[\"_opentrades\"]")
      else if k = openTradesStr then
        some (Bytes.text ("\x7b\"user\": \"bob\", \"color\": \"red\", \"size\": 16, " ++
          "\"open_trades\": [\x7b\"user\": \"bob\", \"timestamp\": 1, \"willing\": " ++
          "[\x7b\"color\": \"red\", \"size\": 16\x7d, " ++
          "\x7b\"color\": \"blue\", \"size\": 1\x7d]\x7d]\x7d"))
      else none }

/-- A ledger with three assets listed in the order `m0`, `m1`, `m2`: `m0` is blue, 16 of bob,
and both `m1` and `m2` are red, 16 of bob. -/
def threeMarbles : Stub :=
  { Stub.empty with
    state := fun k =>
      if k = dendataIndexStr then some (Bytes.doc (encodeIndex ["m0", "m1", "m2"]))
      else if k = "m0" then
        some (Bytes.text
          "\x7b\"name\": \"m0\", \"color\": \"blue\", \"size\": 16, \"user\": \"bob\"\x7d")
      else if k = "m1" then
        some (Bytes.text
          "\x7b\"name\": \"m1\", \"color\": \"red\", \"size\": 16, \"user\": \"bob\"\x7d")
      else if k = "m2" then
        some (Bytes.text
          "\x7b\"name\": \"m2\", \"color\": \"red\", \"size\": 16, \"user\": \"bob\"\x7d")
      else none }

/-- The error `findDendata4Trade` returns when the index is exhausted (line 615). -/
def notFoundMsg : String := "Did not find dendata to use in this trade"

/-- An argument list `init_dendata` accepts: 32 arguments, identifier `d1`. -/
def sampleArgs : List String :=
  ["20240101", "d1", "t", "b", "h", "n", "ny", "bu", "ms", "mn", "kc", "kn", "dn", "dk", "bk",
    "1", "2", "3", "g", "s", "j", "sa", "sb", "u", "4", "5", "6", "7", "8", "9", "10", "r"]

/-- The same argument list with the key of the asset index as identifier. -/
def reservedArgs : List String := sampleArgs.set 1 dendataIndexStr

/-- The ledger after `Init` and one `init_dendata` with `sampleArgs`. -/
def oneAsset : Stub := (init_dendata freshLedger sampleArgs).2

/-- The scenario of the specification: the assets `A1` (blue, 16) and `A2` (red, 16), both of
bob and both listed in the index, and one open trade of alice who wants blue, 16 and is
willing to give red, 16. -/
def scenarioLedger : Stub :=
  { Stub.empty with
    state := fun k =>
      if k = dendataIndexStr then some (Bytes.doc (encodeIndex ["A1", "A2"]))
      else if k = "A1" then
        some (Bytes.text
          "\x7b\"name\": \"A1\", \"color\": \"blue\", \"size\": 16, \"user\": \"bob\"\x7d")
      else if k = "A2" then
        some (Bytes.text
          "\x7b\"name\": \"A2\", \"color\": \"red\", \"size\": 16, \"user\": \"bob\"\x7d")
      else if k = openTradesStr then
        some (Bytes.doc (encodeTrades { OpenTrades :=
          [{ User := "alice", Timestamp := ⟨1, by decide⟩, Want := blue16, Willing := [red16] }] }))
      else none }

/-- Arguments of an open trade of alice: wants blue, 16 and is willing to give red, 16 or
green, 2. -/
def alicesArgs : List String := ["alice", "blue", "16", "red", "16", "green", "2"]

/-- The ledger `oneAsset`, whose index lists `d1`, refusing every write of the asset index. -/
def indexWriteRefused : Stub :=
  { oneAsset with
    putErr := fun k => if k = dendataIndexStr then some "ledger unavailable" else none }

/-- The sample argument list with the identifier `d2`. -/
def secondArgs : List String := sampleArgs.set 1 "d2"

/-- The example ledger (asset `m1`, red, 16 of bob; bob's offer), refusing every read of the
asset index. -/
def indexReadRefused : Stub :=
  { exampleLedger with
    getErr := fun k => if k = dendataIndexStr then some "ledger unavailable" else none }

/-- The example ledger after a sweep: bob's offer is left with the alternative red, 16, for
which the asset `m1` is found. -/
def sweptLedger : Stub :=
  { exampleLedger with
    state := fun k =>
      if k = openTradesStr then
        some (Bytes.doc (encodeTrades { OpenTrades := [{ bobsOffer with Willing := [red16] }] }))
      else exampleLedger.state k }

/-! ## Codec lemmas -/

theorem GoInt.ofInt?_val (i : GoInt) : GoInt.ofInt? i.val = some i := by
  obtain ⟨v, hv⟩ := i
  simp [GoInt.ofInt?, hv]

theorem setInt_int (cur i : GoInt) : setInt cur (JVal.int i.val) = i := by
  simp [setInt, GoInt.ofInt?_val]

theorem decodeIndex_encodeIndex (cur ids : List String) :
    decodeIndex cur (encodeIndex ids) = ids := by
  simp only [decodeIndex, encodeIndex, List.map_map]
  induction ids with
  | nil => rfl
  | cons a t ih => simp [setStr, ih]

theorem unmarshalIndex_doc (ids : List String) :
    unmarshalIndex (Bytes.doc (encodeIndex ids)) = ids := by
  simp [unmarshalIndex, Bytes.json, decodeIndex_encodeIndex]

theorem decodeDescription_encodeDescription (d : Description) :
    decodeDescription Description.zero (encodeDescription d) = d := by
  obtain ⟨a, b, c, e, f, g, h, col, sz⟩ := d
  simp [decodeDescription, encodeDescription, Description.setField, Description.zero, setStr,
    setInt_int, ToLower, lowerChar]

theorem map_decodeDescription_encode (ds : List Description) :
    ds.map (decodeDescription Description.zero ∘ encodeDescription) = ds := by
  induction ds with
  | nil => rfl
  | cons a t ih => simp [decodeDescription_encodeDescription, ih]

theorem decodeTrade_encodeTrade (o : AnOpenTrade) :
    decodeTrade AnOpenTrade.zero (encodeTrade o) = o := by
  obtain ⟨u, ts, w, ws⟩ := o
  simp [decodeTrade, encodeTrade, AnOpenTrade.setField, AnOpenTrade.zero, setStr,
    setInt_int, ToLower, lowerChar, setDescriptions, decodeDescription_encodeDescription,
    map_decodeDescription_encode]

theorem map_decodeTrade_encode (os : List AnOpenTrade) :
    os.map (decodeTrade AnOpenTrade.zero ∘ encodeTrade) = os := by
  induction os with
  | nil => rfl
  | cons a t ih => simp [decodeTrade_encodeTrade, ih]

theorem unmarshalTrades_doc (t : AllTrades) :
    unmarshalTrades (Bytes.doc (encodeTrades t)) = t := by
  obtain ⟨os⟩ := t
  simp [unmarshalTrades, Bytes.json, decodeTrades, encodeTrades, AllTrades.setField, setTrades,
    ToLower, lowerChar, map_decodeTrade_encode]

theorem deleteLoop_eq (sysdenno : String) :
    ∀ (rest pre : List String),
      deleteLoop sysdenno (pre ++ rest) pre.length rest = pre ++ rest.erase sysdenno := by
  intro rest
  induction rest with
  | nil => intro pre; simp [deleteLoop]
  | cons a t ih =>
    intro pre
    by_cases h : a = sysdenno
    · subst h
      simp [deleteLoop]
    · have h2 := ih (pre ++ [a])
      simp only [List.append_assoc, List.singleton_append, List.length_append,
        List.length_singleton] at h2
      simp [deleteLoop, h, h2, List.erase_cons_tail]

theorem elemAt_append_length {α : Type} (pre : List α) (a : α) (rest : List α) :
    elemAt (pre ++ a :: rest) (pre.length : Int) = some a := by
  induction pre with
  | nil => simp [elemAt]
  | cons b t ih =>
    simp only [elemAt] at ih
    simp only [elemAt, List.length_cons, List.cons_append]
    have h0 : (0 : Int) ≤ ((t.length + 1 : Nat) : Int) := Int.natCast_nonneg _
    have h1 : (0 : Int) ≤ (t.length : Int) := Int.natCast_nonneg _
    rw [if_pos h0]
    rw [if_pos h1] at ih
    simpa using ih

theorem removeAt_append_length {α : Type} (pre : List α) (a : α) (rest : List α) :
    removeAt (pre ++ a :: rest) (pre.length : Int) = pre ++ rest := by
  simp [removeAt]

theorem willingLoop_eq (stub : Stub) (user : String) :
    ∀ (suf pre : List Description) (fuel : Nat) (didWork : Bool), suf.length < fuel →
      willingLoop stub user fuel (pre ++ suf) (pre.length : Int) didWork =
        some (pre ++ suf.filter (finds stub user),
          didWork || suf.any (fun alt => !finds stub user alt)) := by
  intro suf
  induction suf with
  | nil =>
    intro pre fuel didWork hf
    obtain ⟨f, rfl⟩ : ∃ f, fuel = f + 1 := ⟨fuel - 1, by omega⟩
    simp [willingLoop]
  | cons a rest ih =>
    intro pre fuel didWork hf
    obtain ⟨f, rfl⟩ : ∃ f, fuel = f + 1 := ⟨fuel - 1, by omega⟩
    have hf2 : rest.length < f := by simpa using hf
    have hlt : (pre.length : Int) < ((pre ++ a :: rest).length : Int) := by
      simp only [List.length_append, List.length_cons]; omega
    rw [willingLoop, if_pos hlt, elemAt_append_length]
    simp only []
    cases hfind : finds stub user a with
    | true =>
      have he : (findDendata4Trade stub user a.Color a.Size).2.isSome = false := by
        simp only [finds] at hfind
        cases h : (findDendata4Trade stub user a.Color a.Size).2 <;> simp_all
      simp only [he, Bool.false_eq_true, if_false]
      have ih2 := ih (pre ++ [a]) f didWork hf2
      simp only [List.append_assoc, List.singleton_append, List.length_append,
        List.length_singleton, Nat.cast_add, Nat.cast_one] at ih2
      by_cases hc : (pre.length : Int) + 1 ≥ ((pre ++ a :: rest).length : Int)
      · have hr : rest = [] := by
          cases rest with
          | nil => rfl
          | cons b t => simp at hc; omega
        subst hr
        simp [hfind]
      · rw [if_neg hc, ih2]
        simp [hfind]
    | false =>
      have he : (findDendata4Trade stub user a.Color a.Size).2.isSome = true := by
        simp only [finds] at hfind
        cases h : (findDendata4Trade stub user a.Color a.Size).2 <;> simp_all
      simp only [he, if_true, removeAt_append_length, sub_add_cancel]
      have ih2 := ih pre f true hf2
      by_cases hc : (pre.length : Int) ≥ ((pre ++ rest).length : Int)
      · have hr : rest = [] := by
          cases rest with
          | nil => rfl
          | cons b t => simp at hc; omega
        subst hr
        simp [hfind]
      · rw [if_neg hc, ih2]
        simp [hfind]

theorem set_append_length {α : Type} (pre : List α) (a b : α) (rest : List α) :
    (pre ++ a :: rest).set pre.length b = pre ++ b :: rest := by
  induction pre with
  | nil => rfl
  | cons c t ih => simp [ih]

theorem sweepReference_cons (stub : Stub) (o : AnOpenTrade) (rest : List AnOpenTrade) :
    sweepReference stub (o :: rest) =
      if (o.Willing.filter (finds stub o.User)).isEmpty then sweepReference stub rest
      else sweepOffer stub o :: sweepReference stub rest := by
  simp only [sweepReference, List.map_cons, List.filter_cons, sweepOffer]
  cases h : (o.Willing.filter (finds stub o.User)).isEmpty <;> simp [h]

theorem tradesLoop_eq (stub : Stub) :
    ∀ (suf pre : List AnOpenTrade) (fuel : Nat) (didWork : Bool), suf.length < fuel →
      tradesLoop stub fuel (pre ++ suf) (pre.length : Int) didWork =
        some (pre ++ sweepReference stub suf, didWork || suf.any (offerTouched stub)) := by
  intro suf
  induction suf with
  | nil =>
    intro pre fuel didWork hf
    obtain ⟨f, rfl⟩ : ∃ f, fuel = f + 1 := ⟨fuel - 1, by omega⟩
    simp [tradesLoop, sweepReference]
  | cons o rest ih =>
    intro pre fuel didWork hf
    obtain ⟨f, rfl⟩ : ∃ f, fuel = f + 1 := ⟨fuel - 1, by omega⟩
    have hf2 : rest.length < f := by simpa using hf
    have hlt : (pre.length : Int) < ((pre ++ o :: rest).length : Int) := by
      simp only [List.length_append, List.length_cons]; omega
    have hw := willingLoop_eq stub o.User o.Willing [] (o.Willing.length + 1) didWork (by omega)
    simp only [List.nil_append, List.length_nil, Nat.cast_zero] at hw
    rw [tradesLoop, if_pos hlt, elemAt_append_length]
    simp only [hw, Int.toNat_ofNat, set_append_length, removeAt_append_length, sub_add_cancel]
    rw [sweepReference_cons]
    cases hemp : (o.Willing.filter (finds stub o.User)).isEmpty with
    | true =>
      have hlen : (List.filter (finds stub o.User) o.Willing).length = 0 := by
        simpa [List.isEmpty_iff] using hemp
      simp only [hlen, decide_True, if_true, sub_add_cancel]
      have ih2 := ih pre f true hf2
      by_cases hc : (pre.length : Int) ≥ ((pre ++ rest).length : Int)
      · have hr : rest = [] := by
          cases rest with
          | nil => rfl
          | cons b t => simp at hc; omega
        subst hr
        simp [sweepReference, offerTouched, hemp]
      · rw [if_neg hc, ih2]
        simp [offerTouched, hemp]
    | false =>
      have hlen : ¬ (List.filter (finds stub o.User) o.Willing).length = 0 := by
        intro h0
        have : (List.filter (finds stub o.User) o.Willing) = [] := List.length_eq_zero.mp h0
        simp [this] at hemp
      simp only [hlen, decide_False, Bool.false_eq_true, if_false]
      have ih2 := ih (pre ++ [sweepOffer stub o]) f
        (didWork || o.Willing.any (fun alt => !finds stub o.User alt)) hf2
      simp only [List.append_assoc, List.singleton_append, List.length_append,
        List.length_singleton, Nat.cast_add, Nat.cast_one] at ih2
      by_cases hc : (pre.length : Int) + 1 ≥
          ((pre ++ { o with Willing := List.filter (finds stub o.User) o.Willing } :: rest).length : Int)
      · have hr : rest = [] := by
          cases rest with
          | nil => rfl
          | cons b t => simp at hc; omega
        subst hr
        simp [sweepReference, offerTouched, hemp, sweepOffer]
      · rw [if_neg hc]
        simp only [sweepOffer] at ih2
        rw [ih2]
        simp [offerTouched, hemp, sweepOffer, Bool.or_assoc]

theorem GetState_ok (stub : Stub) (key : String) (h : stub.getErr key = none) :
    stub.GetState key = (stub.bytesAt key, none) := by
  simp [Stub.GetState, h]

theorem PutState_ok (stub : Stub) (key : String) (value : Bytes) (h : stub.putErr key = none) :
    stub.PutState key value =
      (none, { stub with
        state := fun k => if k = key then some value else stub.state k
        puts := stub.puts ++ [key] }) := by
  simp [Stub.PutState, h]

theorem PutState_puts (stub : Stub) (key : String) (value : Bytes) :
    (stub.PutState key value).2.puts = stub.puts ++ [key] := by
  unfold Stub.PutState
  cases stub.putErr key <;> rfl

theorem cleanTrades_eq (stub : Stub) (hget : stub.getErr openTradesStr = none) :
    cleanTrades stub =
      some (if (orderBook stub).any (offerTouched stub) then
          stub.PutState openTradesStr
            (Bytes.doc (encodeTrades { OpenTrades := sweepReference stub (orderBook stub) }))
        else (none, stub)) := by
  have hl := tradesLoop_eq stub (orderBook stub) [] ((orderBook stub).length + 1) false (by omega)
  simp only [List.nil_append, List.length_nil, Nat.cast_zero, Bool.false_or] at hl
  unfold cleanTrades
  rw [GetState_ok stub _ hget]
  simp only [Option.isSome_none, Bool.false_eq_true, if_false]
  change (match tradesLoop stub ((orderBook stub).length + 1) (orderBook stub) 0 false with
    | none => none
    | some (openTrades, didWork) => _) = _
  rw [hl]
  simp only []
  cases hany : (orderBook stub).any (offerTouched stub) with
  | false => simp
  | true =>
    simp only [if_true]
    cases hp : (stub.PutState openTradesStr
      (Bytes.doc (encodeTrades { OpenTrades := sweepReference stub (orderBook stub) }))) with
    | mk e s1 =>
      cases e <;> simp

theorem filter_finds_eq_self (stub : Stub) (user : String) (w : List Description)
    (h : w.any (fun alt => !finds stub user alt) = false) : w.filter (finds stub user) = w := by
  rw [List.filter_eq_self]
  intro a ha
  rw [List.any_eq_false] at h
  simpa using h a ha

theorem sweepReference_eq_self (stub : Stub) (book : List AnOpenTrade)
    (h : book.any (offerTouched stub) = false) : sweepReference stub book = book := by
  induction book with
  | nil => rfl
  | cons o rest ih =>
    simp only [List.any_cons, Bool.or_eq_false_iff, offerTouched] at h
    obtain ⟨⟨h1, h2⟩, h3⟩ := h
    rw [sweepReference_cons, h2, ih h3]
    simp [sweepOffer, filter_finds_eq_self stub o.User o.Willing h1]

theorem touched_iff_stale (stub : Stub) (o : AnOpenTrade) :
    offerTouched stub o = true ↔ offerStale stub o := by
  simp only [offerTouched, offerStale, Bool.or_eq_true, List.any_eq_true, Bool.not_eq_true',
    List.isEmpty_iff, List.filter_eq_nil_iff]
  constructor
  · rintro (h | h)
    · exact Or.inr h
    · by_cases hw : o.Willing = []
      · exact Or.inl hw
      · obtain ⟨a, ha⟩ := List.exists_mem_of_ne_nil _ hw
        exact Or.inr ⟨a, ha, by simpa using h a ha⟩
  · rintro (h | h)
    · right; intro a ha; simp [h] at ha
    · exact Or.inl h

theorem any_touched_iff (stub : Stub) (book : List AnOpenTrade) :
    book.any (offerTouched stub) = true ↔ ∃ o ∈ book, offerStale stub o := by
  simp [List.any_eq_true, touched_iff_stale]

theorem orderBook_put (stub : Stub) (book : List AnOpenTrade)
    (hput : stub.putErr openTradesStr = none) :
    orderBook (stub.PutState openTradesStr (Bytes.doc (encodeTrades { OpenTrades := book }))).2
      = book := by
  rw [PutState_ok stub _ _ hput]
  simp [orderBook, Stub.bytesAt, unmarshalTrades_doc]

theorem findLoop_congr (stub stub1 : Stub) (user color : String) (size : GoInt)
    (ids : List String)
    (h : ∀ id ∈ ids, stub1.GetState id = stub.GetState id) :
    findLoop stub1 user color size ids = findLoop stub user color size ids := by
  induction ids with
  | nil => rfl
  | cons a t ih =>
    have ha := h a (List.mem_cons_self a t)
    have ht := ih (fun id hid => h id (List.mem_cons_of_mem a hid))
    simp only [findLoop, ha, ht]

theorem finds_put_openTrades (stub : Stub) (value : Bytes)
    (hidx : openTradesStr ∉ indexOf stub) (user : String) (alt : Description) :
    finds (stub.PutState openTradesStr value).2 user alt = finds stub user alt := by
  have hget : ∀ key, key ≠ openTradesStr →
      (stub.PutState openTradesStr value).2.GetState key = stub.GetState key := by
    intro key hk
    unfold Stub.PutState
    cases stub.putErr openTradesStr <;> simp [Stub.GetState, Stub.bytesAt, hk]
  have h0 : (stub.PutState openTradesStr value).2.GetState dendataIndexStr
      = stub.GetState dendataIndexStr := hget _ (by decide)
  simp only [finds, findDendata4Trade, h0]
  cases hg : stub.getErr dendataIndexStr with
  | some e => simp [Stub.GetState, hg]
  | none =>
    rw [GetState_ok stub _ hg]
    simp only [Option.isSome_none, Bool.false_eq_true, if_false]
    rw [findLoop_congr]
    intro id hid
    apply hget
    intro hid2
    apply hidx
    rw [← hid2]
    exact hid

theorem sweepReference_untouched (stub1 stub : Stub) (book : List AnOpenTrade)
    (hf : ∀ user alt, finds stub1 user alt = finds stub user alt) :
    (sweepReference stub book).any (offerTouched stub1) = false := by
  induction book with
  | nil => rfl
  | cons o rest ih =>
    rw [sweepReference_cons]
    cases hemp : (o.Willing.filter (finds stub o.User)).isEmpty with
    | true => simpa using ih
    | false =>
      simp only [Bool.false_eq_true, if_false, List.any_cons, ih, Bool.or_false]
      have hfun : finds stub1 o.User = finds stub o.User := funext (hf o.User)
      simp only [offerTouched, sweepOffer, hfun, List.filter_filter, Bool.and_self, hemp,
        Bool.or_false]
      rw [List.any_eq_false]
      intro a ha
      simpa using (List.mem_filter.mp ha).2

/-- C2 (sweep correctness). When the ledger serves the read and the write of the order book,
`cleanTrades` ends normally and leaves the order book equal to the reference result: every
willing list filtered, in order, to the alternatives for which `findDendata4Trade` finds an
asset, and the offers left without alternative dropped, the others in their original order. -/
theorem cleanTrades_sweep (stub : Stub)
    (hget : stub.getErr openTradesStr = none) (hput : stub.putErr openTradesStr = none) :
    ∃ stub1, cleanTrades stub = some (none, stub1) ∧
      orderBook stub1 = sweepReference stub (orderBook stub) := by
  rw [cleanTrades_eq stub hget]
  cases hany : (orderBook stub).any (offerTouched stub) with
  | false =>
    refine ⟨stub, by simp, ?_⟩
    rw [sweepReference_eq_self stub _ hany]
  | true =>
    refine ⟨(stub.PutState openTradesStr (Bytes.doc
      (encodeTrades { OpenTrades := sweepReference stub (orderBook stub) }))).2, ?_, ?_⟩
    · simp [PutState_ok stub _ _ hput]
    · exact orderBook_put stub _ hput

set_option maxRecDepth 1000000 in
/-- C2 at the example ledger: bob's offer with the satisfiable alternative red, 16 and the
unsatisfiable alternative blue, 1 is kept with the willing list red, 16. -/
theorem cleanTrades_sweep_witness :
    exampleLedger.getErr openTradesStr = none ∧ exampleLedger.putErr openTradesStr = none ∧
    sweepReference exampleLedger (orderBook exampleLedger) =
      [{ bobsOffer with Willing := [red16] }] ∧
    ∃ stub1, cleanTrades exampleLedger = some (none, stub1) ∧
      orderBook stub1 = sweepReference exampleLedger (orderBook exampleLedger) :=
  ⟨rfl, rfl, by decide, cleanTrades_sweep exampleLedger rfl rfl⟩

/-- C3 amended (sweep idempotence). On every ledger whose asset index does not list the key of
the order book, when the ledger serves the read and the write of the order book, a second
`cleanTrades` right after the first leaves the whole ledger as the first left it: the same
order book and no further `PutState` call. -/
theorem cleanTrades_idempotent (stub : Stub)
    (hget : stub.getErr openTradesStr = none) (hput : stub.putErr openTradesStr = none)
    (hidx : openTradesStr ∉ indexOf stub) :
    ∃ stub1, cleanTrades stub = some (none, stub1) ∧ cleanTrades stub1 = some (none, stub1) := by
  cases hany : (orderBook stub).any (offerTouched stub) with
  | false =>
    have h := cleanTrades_eq stub hget
    simp only [hany, Bool.false_eq_true, if_false] at h
    exact ⟨stub, h, h⟩
  | true =>
    have h := cleanTrades_eq stub hget
    simp only [hany, if_true] at h
    refine ⟨(stub.PutState openTradesStr (Bytes.doc
      (encodeTrades { OpenTrades := sweepReference stub (orderBook stub) }))).2, ?_, ?_⟩
    · rw [h, PutState_ok stub _ _ hput]
    · have hget1 : (stub.PutState openTradesStr (Bytes.doc
          (encodeTrades { OpenTrades := sweepReference stub (orderBook stub) }))).2.getErr
          openTradesStr = none := by
        rw [PutState_ok stub _ _ hput]; exact hget
      rw [cleanTrades_eq _ hget1, orderBook_put stub _ hput]
      rw [sweepReference_untouched _ stub _ (finds_put_openTrades stub _ hidx)]
      simp

set_option maxRecDepth 1000000 in
/-- C3 amended, at the example ledger, whose index lists the asset `m1` only. -/
theorem cleanTrades_idempotent_witness :
    exampleLedger.getErr openTradesStr = none ∧ exampleLedger.putErr openTradesStr = none ∧
    openTradesStr ∉ indexOf exampleLedger ∧
    ∃ stub1, cleanTrades exampleLedger = some (none, stub1) ∧
      cleanTrades stub1 = some (none, stub1) :=
  ⟨rfl, rfl, by decide, cleanTrades_idempotent exampleLedger rfl rfl (by decide)⟩

set_option maxRecDepth 1000000 in
/-- C3 as stated fails on the tangled ledger, where the index lists `_opentrades`: the first
sweep keeps bob's offer with red, 16 and writes the book; the second sweep, with no request in
between, no longer finds the asset it found under `_opentrades`, removes the offer and writes
again. -/
theorem cleanTrades_not_idempotent :
    indexOf tangledLedger = ["_opentrades"] ∧
    (cleanTrades tangledLedger).map (fun r => (r.1, orderBook r.2, r.2.puts)) =
      some (none, [{ bobsOffer with Want := Description.zero, Willing := [red16] }],
        ["_opentrades"]) ∧
    ((cleanTrades tangledLedger).bind (fun r => cleanTrades r.2)).map
        (fun r => (r.1, orderBook r.2, r.2.puts)) =
      some (none, [], ["_opentrades", "_opentrades"]) := by
  refine ⟨?_, ?_, ?_⟩ <;> decide

theorem findLoop_cons (stub : Stub) (user color : String) (size : GoInt) (a : String)
    (t : List String) (h : stub.getErr a = none) :
    findLoop stub user color size (a :: t) =
      if matchTest (recordAt stub a) user color size then (recordAt stub a, none)
      else findLoop stub user color size t := by
  simp [findLoop, GetState_ok stub a h, recordAt]

theorem findLoop_spec (stub : Stub) (user color : String) (size : GoInt) :
    ∀ ids : List String, (∀ id ∈ ids, stub.getErr id = none) →
      (∀ (p : Nat) (id : String), ids[p]? = some id → matchTest (recordAt stub id) user color size = true →
        (∀ (q : Nat) (id1 : String), q < p → ids[q]? = some id1 →
          matchTest (recordAt stub id1) user color size = false) →
        findLoop stub user color size ids = (recordAt stub id, none)) ∧
      ((findLoop stub user color size ids).2 = some notFoundMsg ↔
        ∀ id ∈ ids, matchTest (recordAt stub id) user color size = false) ∧
      ((findLoop stub user color size ids).2 = none ↔
        ∃ id ∈ ids, matchTest (recordAt stub id) user color size = true) := by
  intro ids
  induction ids with
  | nil =>
    intro _
    refine ⟨?_, ?_, ?_⟩
    · intro p id hp; simp at hp
    · simp [findLoop, notFoundMsg]
    · simp [findLoop]
  | cons a t ih =>
    intro h
    have ha := h a (List.mem_cons_self a t)
    obtain ⟨ih1, ih2, ih3⟩ := ih (fun id hid => h id (List.mem_cons_of_mem a hid))
    rw [findLoop_cons stub user color size a t ha]
    cases hm : matchTest (recordAt stub a) user color size with
    | true =>
      refine ⟨?_, ?_, ?_⟩
      · intro p id hp hid hq
        cases p with
        | zero =>
          simp only [List.getElem?_cons_zero, Option.some.injEq] at hp
          subst hp; simp
        | succ p1 =>
          have := hq 0 a (Nat.succ_pos p1) (by simp)
          rw [hm] at this; cases this
      · simp [hm]
      · simp [hm]
    | false =>
      simp only [Bool.false_eq_true, if_false]
      refine ⟨?_, ?_, ?_⟩
      · intro p id hp hid hq
        cases p with
        | zero =>
          simp only [List.getElem?_cons_zero, Option.some.injEq] at hp
          subst hp; rw [hm] at hid; cases hid
        | succ p1 =>
          simp only [List.getElem?_cons_succ] at hp
          apply ih1 p1 id hp hid
          intro q id1 hq1 hq2
          exact hq (q + 1) id1 (by omega) (by simpa using hq2)
      · rw [ih2]; simp [hm]
      · rw [ih3]; simp [hm]

/-- C5 (matching determinism). When the ledger serves the reads of the index and of the
records it lists, `findDendata4Trade` returns the record at the smallest index position whose
record passes the match test, with a nil error; it returns the not-found error exactly when
no identifier of the index has a matching record, and a nil error exactly when one has. -/
theorem findDendata4Trade_first_match (stub : Stub) (user color : String) (size : GoInt)
    (hidx : stub.getErr dendataIndexStr = none)
    (hrec : ∀ id ∈ indexOf stub, stub.getErr id = none) :
    (∀ (p : Nat) (id : String), (indexOf stub)[p]? = some id →
      matchTest (recordAt stub id) user color size = true →
      (∀ (q : Nat) (id1 : String), q < p → (indexOf stub)[q]? = some id1 →
        matchTest (recordAt stub id1) user color size = false) →
      findDendata4Trade stub user color size = (recordAt stub id, none)) ∧
    ((findDendata4Trade stub user color size).2 = some notFoundMsg ↔
      ∀ id ∈ indexOf stub, matchTest (recordAt stub id) user color size = false) ∧
    ((findDendata4Trade stub user color size).2 = none ↔
      ∃ id ∈ indexOf stub, matchTest (recordAt stub id) user color size = true) := by
  have h : findDendata4Trade stub user color size =
      findLoop stub user color size (indexOf stub) := by
    simp [findDendata4Trade, GetState_ok stub _ hidx, indexOf]
  rw [h]
  exact findLoop_spec stub user color size (indexOf stub) hrec

set_option maxRecDepth 1000000 in
/-- C5 at the ledger with three marbles: `m1` and `m2` both match bob, red, 16; the record of
`m1`, at the lower position, is returned. -/
theorem findDendata4Trade_first_match_witness :
    threeMarbles.getErr dendataIndexStr = none ∧
    (∀ id ∈ indexOf threeMarbles, threeMarbles.getErr id = none) ∧
    matchTest (recordAt threeMarbles "m2") "bob" "red" ⟨16, by decide⟩ = true ∧
    findDendata4Trade threeMarbles "bob" "red" ⟨16, by decide⟩ =
      (recordAt threeMarbles "m1", none) ∧
    (recordAt threeMarbles "m1").Name = "m1" :=
  ⟨rfl, fun _ _ => rfl, by decide,
    (findDendata4Trade_first_match threeMarbles "bob" "red" ⟨16, by decide⟩ rfl
      (fun _ _ => rfl)).1 1 "m1" (by decide) (by decide)
      (fun q id1 hq h => by
        have hq0 : q = 0 := by omega
        subst hq0
        have hid : id1 = "m0" := by
          have h0 : (indexOf threeMarbles)[0]? = some "m0" := by decide
          rw [h0] at h
          exact (Option.some.inj h).symm
        subst hid
        decide),
    by decide⟩

/-- C6 amended (description matcher). The match test of `findDendata4Trade` holds exactly when
the record's owner equals the given owner ignoring letter case, the record's colour equals the
description's colour ignoring letter case, and the record's size equals the description's
size. -/
theorem matchTest_iff (res : Dendata) (user color : String) (size : GoInt) :
    matchTest res user color size = true ↔
      ToLower res.User = ToLower user ∧ ToLower res.Color = ToLower color ∧ res.Size = size := by
  simp [matchTest, and_assoc]

/-- C6 as stated fails: a record of bob coloured `Blue` passes the match test for the
description `blue`, 16 although its colour attribute differs from the description's. -/
theorem matchTest_not_exact :
    ¬ (∀ (res : Dendata) (user color : String) (size : GoInt),
      matchTest res user color size = true ↔
        ToLower res.User = ToLower user ∧ res.Color = color ∧ res.Size = size) := by
  intro h
  have h1 := (h { Dendata.zero with User := "bob", Color := "Blue", Size := ⟨16, by decide⟩ }
    "bob" "blue" ⟨16, by decide⟩).mp (by decide)
  exact absurd h1.2.1 (by decide)

theorem bytesAt_put_ne (stub : Stub) (key key1 : String) (value : Bytes) (h : key1 ≠ key) :
    (stub.PutState key value).2.bytesAt key1 = stub.bytesAt key1 := by
  unfold Stub.PutState
  cases stub.putErr key <;> simp [Stub.bytesAt, h]

theorem PutState_getErr (stub : Stub) (key : String) (value : Bytes) :
    (stub.PutState key value).2.getErr = stub.getErr := by
  unfold Stub.PutState
  cases stub.putErr key <;> rfl

theorem PutState_putErr (stub : Stub) (key : String) (value : Bytes) :
    (stub.PutState key value).2.putErr = stub.putErr := by
  unfold Stub.PutState
  cases stub.putErr key <;> rfl

theorem init_dendata_ok (stub : Stub) (args : List String)
    (hok : (init_dendata stub args).1 = none) :
    args.length = 32 ∧ stub.putErr (args.getD 1 "") = none ∧
    init_dendata stub args = (none,
      ((stub.PutState (args.getD 1 "") (Bytes.text (dendataJson args))).2.PutState
        dendataIndexStr (Bytes.doc (encodeIndex
          (indexOf (stub.PutState (args.getD 1 "") (Bytes.text (dendataJson args))).2 ++
            [args.getD 1 ""])))).2) := by
  by_cases h1 : args.length ≠ 32
  · rw [init_dendata, if_pos h1] at hok; cases hok
  by_cases h2 : (args.getD 0 "").length ≤ 0
  · rw [init_dendata, if_neg h1, if_pos h2] at hok; cases hok
  by_cases h3 : (args.getD 1 "").length ≤ 0
  · rw [init_dendata, if_neg h1, if_neg h2, if_pos h3] at hok; cases hok
  by_cases h4 : (args.getD 18 "").length ≤ 0
  · rw [init_dendata, if_neg h1, if_neg h2, if_neg h3, if_pos h4] at hok; cases hok
  by_cases h5 : (args.getD 19 "").length ≤ 0
  · rw [init_dendata, if_neg h1, if_neg h2, if_neg h3, if_neg h4, if_pos h5] at hok; cases hok
  rw [init_dendata, if_neg h1, if_neg h2, if_neg h3, if_neg h4, if_neg h5] at hok ⊢
  refine ⟨by simpa using h1, ?_⟩
  cases hg : stub.getErr (args.getD 1 "") with
  | some e =>
    simp only [Stub.GetState, hg, Option.isSome_some, if_true] at hok
    cases hok
  | none =>
    simp only [Stub.GetState, hg, Option.isSome_none, Bool.false_eq_true, if_false,
      PutState_getErr] at hok ⊢
    by_cases hn : (unmarshalDendata (stub.bytesAt (args.getD 1 ""))).Name = args.getD 1 ""
    · rw [if_pos hn] at hok; cases hok
    rw [if_neg hn] at hok ⊢
    cases hp : stub.putErr (args.getD 1 "") with
    | some e =>
      simp only [Stub.PutState, hp, Option.isSome_some, if_true] at hok
      cases hok
    | none =>
      refine ⟨rfl, ?_⟩
      have hp1 : (stub.PutState (args.getD 1 "") (Bytes.text (dendataJson args))).1 = none := by
        rw [PutState_ok _ _ _ hp]
      simp only [hp1, Option.isSome_none, Bool.false_eq_true, if_false] at hok ⊢
      cases hgi : stub.getErr dendataIndexStr with
      | some e =>
        simp only [hgi, Option.isSome_some, if_true] at hok
        cases hok
      | none =>
        simp only [hgi, Option.isSome_none, Bool.false_eq_true, if_false, indexOf]

/-- C8 amended (create appends to the index). For every argument list whose identifier is not
the key of the asset index, an `init_dendata` that returns success and whose write of the
index the ledger accepts leaves the index equal to the previous index with the identifier
appended as last entry, all earlier entries as they were, and leaves the hand-built record
text stored under the identifier. Such a list has 32 arguments. -/
theorem init_dendata_appends (stub : Stub) (args : List String)
    (hok : (init_dendata stub args).1 = none)
    (hid : args.getD 1 "" ≠ dendataIndexStr)
    (hput : stub.putErr dendataIndexStr = none) :
    args.length = 32 ∧
    indexOf (init_dendata stub args).2 = indexOf stub ++ [args.getD 1 ""] ∧
    (init_dendata stub args).2.state (args.getD 1 "") =
      some (Bytes.text (dendataJson args)) := by
  obtain ⟨hlen, hp, heq⟩ := init_dendata_ok stub args hok
  refine ⟨hlen, ?_, ?_⟩
  · rw [heq]
    have hput1 : (stub.PutState (args.getD 1 "") (Bytes.text (dendataJson args))).2.putErr
        dendataIndexStr = none := by rw [PutState_putErr]; exact hput
    simp only []
    rw [PutState_ok _ _ _ hput1]
    simp only [indexOf, Stub.bytesAt, if_true, Option.getD_some, unmarshalIndex_doc]
    rw [← Stub.bytesAt, ← Stub.bytesAt, bytesAt_put_ne stub _ _ _ (Ne.symm hid)]
  · rw [heq]
    have hput1 : (stub.PutState (args.getD 1 "") (Bytes.text (dendataJson args))).2.putErr
        dendataIndexStr = none := by rw [PutState_putErr]; exact hput
    simp only []
    rw [PutState_ok _ _ _ hput1, PutState_ok _ _ _ hp]
    show (if args.getD 1 "" = dendataIndexStr then _
      else if args.getD 1 "" = args.getD 1 "" then _ else _) = _
    rw [if_neg hid, if_pos rfl]

set_option maxRecDepth 1000000 in
/-- C8 amended, at the fresh ledger with the sample arguments: the index becomes `d1`. -/
theorem init_dendata_appends_witness :
    (init_dendata freshLedger sampleArgs).1 = none ∧
    sampleArgs.getD 1 "" ≠ dendataIndexStr ∧
    freshLedger.putErr dendataIndexStr = none ∧
    indexOf freshLedger = [] ∧
    sampleArgs.length = 32 ∧
    indexOf (init_dendata freshLedger sampleArgs).2 = indexOf freshLedger ++ [sampleArgs.getD 1 ""] ∧
    (init_dendata freshLedger sampleArgs).2.state (sampleArgs.getD 1 "") =
      some (Bytes.text (dendataJson sampleArgs)) :=
  ⟨by decide, by decide, rfl, by decide,
    init_dendata_appends freshLedger sampleArgs (by decide) (by decide) rfl⟩

set_option maxRecDepth 1000000 in
/-- C8 as stated fails when the identifier is the key of the asset index: on the ledger whose
index lists `d1`, `init_dendata` with identifier `_dendataindex` (not listed, and accepted)
returns success, yet the index is not the previous index with the identifier appended (the
entry `d1` is lost), and what is stored under the identifier is the new index rather than the
record text. -/
theorem init_dendata_reserved_key :
    (init_dendata oneAsset reservedArgs).1 = none ∧
    indexOf oneAsset = ["d1"] ∧
    reservedArgs.getD 1 "" ∉ indexOf oneAsset ∧
    indexOf (init_dendata oneAsset reservedArgs).2 = ["_dendataindex"] ∧
    indexOf (init_dendata oneAsset reservedArgs).2 ≠
      indexOf oneAsset ++ [reservedArgs.getD 1 ""] ∧
    unmarshalIndex ((init_dendata oneAsset reservedArgs).2.bytesAt (reservedArgs.getD 1 "")) ≠
      unmarshalIndex (Bytes.text (dendataJson reservedArgs)) := by
  refine ⟨?_, ?_, ?_, ?_, ?_, ?_⟩ <;> decide

theorem Delete_ok (stub : Stub) (id : String)
    (hdel : stub.delErr id = none) (hget : stub.getErr dendataIndexStr = none) :
    Delete stub [id] = (none,
      ((stub.DelState id).2.PutState dendataIndexStr (Bytes.doc (encodeIndex
        ((indexOf (stub.DelState id).2).erase id)))).2) := by
  have hd : stub.DelState id =
      (none, { stub with state := fun k => if k = id then none else stub.state k }) := by
    simp [Stub.DelState, hdel]
  have hl := deleteLoop_eq id (indexOf (stub.DelState id).2) []
  simp only [List.nil_append, List.length_nil] at hl
  rw [Delete]
  simp only [List.length_singleton, ne_eq, not_true_eq_false, if_false, List.getD_cons_zero]
  rw [hd] at hl ⊢
  simp only [Option.isSome_none, Bool.false_eq_true, if_false]
  rw [GetState_ok _ _ (by exact hget)]
  simp only [Option.isSome_none, Bool.false_eq_true, if_false]
  rw [← hl]
  rfl

/-- C10 amended (delete with reindex). For every identifier other than the key of the asset
index, when the ledger serves the delete, the read of the index and the write of the index,
`Delete` returns success, leaves nothing stored under the identifier, and leaves the index
equal to the previous index with the first occurrence of the identifier cut out, all other
entries in their order; when the identifier does not occur the index is unchanged. -/
theorem Delete_reindexes (stub : Stub) (id : String)
    (hid : id ≠ dendataIndexStr)
    (hdel : stub.delErr id = none) (hget : stub.getErr dendataIndexStr = none)
    (hput : stub.putErr dendataIndexStr = none) :
    (Delete stub [id]).1 = none ∧
    (Delete stub [id]).2.state id = none ∧
    (∀ pre post : List String, indexOf stub = pre ++ id :: post → id ∉ pre →
      indexOf (Delete stub [id]).2 = pre ++ post) ∧
    (id ∉ indexOf stub → indexOf (Delete stub [id]).2 = indexOf stub) := by
  have hd : stub.DelState id =
      (none, { stub with state := fun k => if k = id then none else stub.state k }) := by
    simp [Stub.DelState, hdel]
  have hidx : indexOf (stub.DelState id).2 = indexOf stub := by
    rw [hd]
    simp [indexOf, Stub.bytesAt, Ne.symm hid]
  have hput1 : (stub.DelState id).2.putErr dendataIndexStr = none := by rw [hd]; exact hput
  have hindex : indexOf (Delete stub [id]).2 = (indexOf stub).erase id := by
    rw [Delete_ok stub id hdel hget, hidx, PutState_ok _ _ _ hput1]
    simp [indexOf, Stub.bytesAt, unmarshalIndex_doc]
  refine ⟨?_, ?_, ?_, ?_⟩
  · rw [Delete_ok stub id hdel hget]
  · rw [Delete_ok stub id hdel hget, PutState_ok _ _ _ hput1, hd]
    show (if id = dendataIndexStr then _ else if id = id then _ else _) = _
    rw [if_neg hid, if_pos rfl]
  · intro pre post hsplit hpre
    rw [hindex, hsplit, List.erase_append_right _ hpre, List.erase_cons_head]
  · intro hnot
    rw [hindex, List.erase_of_not_mem hnot]

set_option maxRecDepth 1000000 in
/-- C10 amended, at the ledger whose index lists `d1`: deleting `d1` empties the index. -/
theorem Delete_reindexes_witness :
    "d1" ≠ dendataIndexStr ∧ oneAsset.delErr "d1" = none ∧
    oneAsset.getErr dendataIndexStr = none ∧ oneAsset.putErr dendataIndexStr = none ∧
    indexOf oneAsset = [] ++ "d1" :: [] ∧
    indexOf (Delete oneAsset ["d1"]).2 = [] ++ [] ∧
    (Delete oneAsset ["d1"]).1 = none ∧ (Delete oneAsset ["d1"]).2.state "d1" = none :=
  have h := Delete_reindexes oneAsset "d1" (by decide) rfl rfl rfl
  ⟨by decide, rfl, rfl, rfl, by decide, h.2.2.1 [] [] (by decide) (by simp), h.1, h.2.1⟩

set_option maxRecDepth 1000000 in
/-- C10 as stated fails when the identifier is the key of the asset index: on the ledger whose
index lists `d1`, `Delete` of `_dendataindex` (which does not occur in the index) returns
success, yet the index is not unchanged (the entry `d1` is lost), and a value is again stored
under the identifier. -/
theorem Delete_reserved_key :
    oneAsset.delErr dendataIndexStr = none ∧ oneAsset.getErr dendataIndexStr = none ∧
    oneAsset.putErr dendataIndexStr = none ∧
    indexOf oneAsset = ["d1"] ∧
    dendataIndexStr ∉ indexOf oneAsset ∧
    (Delete oneAsset [dendataIndexStr]).1 = none ∧
    indexOf (Delete oneAsset [dendataIndexStr]).2 = [] ∧
    indexOf (Delete oneAsset [dendataIndexStr]).2 ≠ indexOf oneAsset ∧
    ((Delete oneAsset [dendataIndexStr]).2.state dendataIndexStr).isSome = true := by
  refine ⟨rfl, rfl, rfl, ?_, ?_, ?_, ?_, ?_, ?_⟩ <;> decide

theorem freshLedger_state (key : String) (h : (freshLedger.state key).isSome = true) :
    key ∈ systemKeys := by
  have hs : freshLedger.state = fun k =>
      if k = openTradesStr then some (Bytes.doc (encodeTrades { OpenTrades := [] }))
      else if k = dendataIndexStr then some (Bytes.doc (encodeIndex []))
      else if k = "abc" then some (Bytes.text (Itoa (Atoi "0").1))
      else none := by rfl
  rw [hs] at h
  simp only [systemKeys, List.mem_cons, List.mem_singleton]
  by_cases h1 : key = openTradesStr
  · exact Or.inr (Or.inr (Or.inl h1))
  · by_cases h2 : key = dendataIndexStr
    · exact Or.inr (Or.inl h2)
    · by_cases h3 : key = "abc"
      · exact Or.inl h3
      · simp [h1, h2, h3] at h

set_option maxRecDepth 1000000 in
/-- C1 at its failing input: the fresh ledger has index integrity; two `init_dendata` with the
same accepted argument list both return success, and the index then lists `d1` twice, so
index integrity is lost. -/
theorem index_integrity_lost_by_double_create :
    IndexIntegrity freshLedger ∧
    (init_dendata freshLedger sampleArgs).1 = none ∧
    (init_dendata (init_dendata freshLedger sampleArgs).2 sampleArgs).1 = none ∧
    indexOf (run freshLedger [Op.create sampleArgs, Op.create sampleArgs]) = ["d1", "d1"] ∧
    ¬ IndexIntegrity (run freshLedger [Op.create sampleArgs, Op.create sampleArgs]) := by
  have hidx : indexOf (run freshLedger [Op.create sampleArgs, Op.create sampleArgs])
      = ["d1", "d1"] := by decide
  refine ⟨⟨?_, ?_⟩, by decide, by decide, hidx, ?_⟩
  · intro key
    have h0 : indexOf freshLedger = [] := by decide
    rw [h0]
    constructor
    · intro h; cases h
    · intro h; exact absurd (freshLedger_state key h.1) h.2
  · have h0 : indexOf freshLedger = [] := by decide
    rw [h0]; exact List.nodup_nil
  · intro h
    have h2 := h.2
    rw [hidx] at h2
    exact absurd h2 (by decide)

set_option maxRecDepth 1000000 in
/-- C7 at its failing input: after a successful `init_dendata` for `d1` a value is stored
under `d1`, but the duplicate check reads an empty `Name` from it; a further `init_dendata`
for `d1` returns success instead of the already-exists error and appends `d1` to the index a
second time. -/
theorem duplicate_create_not_rejected :
    (init_dendata freshLedger sampleArgs).1 = none ∧
    (oneAsset.state "d1").isSome = true ∧
    indexOf oneAsset = ["d1"] ∧
    (recordAt oneAsset "d1").Name = "" ∧
    (init_dendata oneAsset sampleArgs).1 = none ∧
    (init_dendata oneAsset sampleArgs).1 ≠ some "This dendata arleady exists" ∧
    indexOf (init_dendata oneAsset sampleArgs).2 = ["d1", "d1"] := by
  refine ⟨?_, ?_, ?_, ?_, ?_, ?_, ?_⟩ <;> decide

set_option maxRecDepth 1000000 in
/-- C9 at its failing input: the text `init_dendata` stores under `d1` is not well-formed JSON
(two commas in a row follow the `gyono` member), so decoding it as a `Dendata` fails and
leaves the zero record, whose `sysdenno` is empty instead of `d1`. -/
theorem stored_record_not_decodable :
    (init_dendata freshLedger sampleArgs).1 = none ∧
    oneAsset.state "d1" = some (Bytes.text (dendataJson sampleArgs)) ∧
    (parseJson (dendataJson sampleArgs)).isNone = true ∧
    unmarshalDendata (oneAsset.bytesAt "d1") = Dendata.zero ∧
    (unmarshalDendata (oneAsset.bytesAt "d1")).Sysdenno ≠ sampleArgs.getD 1 "" := by
  refine ⟨by decide, by rfl, by decide, by decide, by decide⟩

theorem cleanTrades_total (stub : Stub) : ∃ r, cleanTrades stub = some r := by
  cases hget : stub.getErr openTradesStr with
  | some e => exact ⟨(some "Failed to get opentrades", stub), by simp [cleanTrades, Stub.GetState, hget]⟩
  | none => exact ⟨_, cleanTrades_eq stub hget⟩

theorem DelState_getErr (stub : Stub) (key : String) :
    (stub.DelState key).2.getErr = stub.getErr := by
  unfold Stub.DelState
  cases stub.delErr key <;> rfl

theorem DelState_putErr (stub : Stub) (key : String) :
    (stub.DelState key).2.putErr = stub.putErr := by
  unfold Stub.DelState
  cases stub.delErr key <;> rfl

theorem Delete_errs (stub : Stub) (args : List String) :
    (Delete stub args).2.getErr = stub.getErr ∧ (Delete stub args).2.putErr = stub.putErr := by
  by_cases h1 : args.length ≠ 1
  · rw [Delete, if_pos h1]; exact ⟨rfl, rfl⟩
  rw [Delete, if_neg h1]
  simp only []
  have hg := DelState_getErr stub (args.getD 0 "")
  have hp := DelState_putErr stub (args.getD 0 "")
  cases hd : stub.DelState (args.getD 0 "") with
  | mk e s1 =>
    rw [hd] at hg hp
    simp only [] at hg hp ⊢
    by_cases h2 : e.isSome = true
    · rw [if_pos h2]; exact ⟨hg, hp⟩
    rw [if_neg h2]
    cases hgs : s1.GetState dendataIndexStr with
    | mk b e1 =>
      simp only []
      by_cases h3 : e1.isSome = true
      · rw [if_pos h3]; exact ⟨hg, hp⟩
      rw [if_neg h3]
      exact ⟨by rw [PutState_getErr, hg], by rw [PutState_putErr, hp]⟩

theorem not_stale_of_mem_sweepReference (stub : Stub) (book : List AnOpenTrade)
    (o : AnOpenTrade) (h : o ∈ sweepReference stub book) : ¬ offerStale stub o := by
  simp only [sweepReference, List.mem_filter, List.mem_map] at h
  obtain ⟨⟨o0, _, rfl⟩, hne⟩ := h
  simp only [sweepOffer, Bool.not_eq_true', List.isEmpty_eq_false] at hne
  rintro (hempty | ⟨alt, halt, hf⟩)
  · exact hne hempty
  · simp only [sweepOffer, List.mem_filter] at halt
    change finds stub o0.User alt = false at hf
    rw [halt.2] at hf
    cases hf

/-- C11 (delete triggers the sweep). `Invoke` of `delete` always ends normally, in the ledger
that `cleanTrades` leaves when run on the ledger `Delete` left, and returns the error of
`Delete`. When the ledger serves the read and the write of the order book, the order book is
then the reference sweep taken on the ledger after the deletion, so that no offer that is
stale there (an empty willing list, or an alternative for which no asset is found) is in it. -/
theorem Invoke_delete_sweeps (stub : Stub) (args : List String) :
    ∃ r, cleanTrades (Delete stub args).2 = some r ∧
      Invoke stub "delete" args = some ((Delete stub args).1, r.2) ∧
      (stub.getErr openTradesStr = none → stub.putErr openTradesStr = none →
        orderBook r.2 = sweepReference (Delete stub args).2 (orderBook (Delete stub args).2) ∧
        ∀ o, offerStale (Delete stub args).2 o → o ∉ orderBook r.2) := by
  obtain ⟨r, hr⟩ := cleanTrades_total (Delete stub args).2
  refine ⟨r, hr, ?_, ?_⟩
  · simp [Invoke, hr]
  · intro hget hput
    have hget1 : (Delete stub args).2.getErr openTradesStr = none := by
      rw [(Delete_errs stub args).1]; exact hget
    have hput1 : (Delete stub args).2.putErr openTradesStr = none := by
      rw [(Delete_errs stub args).2]; exact hput
    have hbook : orderBook r.2 =
        sweepReference (Delete stub args).2 (orderBook (Delete stub args).2) := by
      have h := cleanTrades_eq (Delete stub args).2 hget1
      rw [hr] at h
      have hr2 := Option.some.inj h
      rw [hr2]
      cases hany : (orderBook (Delete stub args).2).any (offerTouched (Delete stub args).2) with
      | false =>
        simp only [Bool.false_eq_true, if_false]
        rw [sweepReference_eq_self _ _ hany]
      | true =>
        simp only [if_true]
        exact orderBook_put _ _ hput1
    refine ⟨hbook, ?_⟩
    intro o hstale hmem
    rw [hbook] at hmem
    exact not_stale_of_mem_sweepReference _ _ o hmem hstale

set_option maxRecDepth 1000000 in
/-- C11 at the scenario of the specification: after `Invoke` of `delete` for `A2` the index
lists `A1` only and alice's offer, whose only alternative red, 16 finds no asset, is no longer
in the order book. -/
theorem Invoke_delete_sweeps_witness :
    orderBook scenarioLedger =
      [{ User := "alice", Timestamp := ⟨1, by decide⟩, Want := blue16, Willing := [red16] }] ∧
    (Invoke scenarioLedger "delete" ["A2"]).map (fun r => (r.1, indexOf r.2, orderBook r.2)) =
      some (none, ["A1"], []) ∧
    ∃ r, cleanTrades (Delete scenarioLedger ["A2"]).2 = some r ∧
      Invoke scenarioLedger "delete" ["A2"] = some ((Delete scenarioLedger ["A2"]).1, r.2) ∧
      (scenarioLedger.getErr openTradesStr = none → scenarioLedger.putErr openTradesStr = none →
        orderBook r.2 = sweepReference (Delete scenarioLedger ["A2"]).2
          (orderBook (Delete scenarioLedger ["A2"]).2) ∧
        ∀ o, offerStale (Delete scenarioLedger ["A2"]).2 o → o ∉ orderBook r.2) :=
  ⟨by decide, by decide, Invoke_delete_sweeps scenarioLedger ["A2"]⟩

theorem PutState_eta (stub : Stub) (key : String) (value : Bytes) :
    (if (stub.PutState key value).1.isSome = true then
        ((stub.PutState key value).1, (stub.PutState key value).2)
      else (none, (stub.PutState key value).2)) = stub.PutState key value := by
  cases h : stub.PutState key value with
  | mk e s1 => cases e <;> simp

theorem removeLoop_none (stub : Stub) (ts : GoInt) (all : List AnOpenTrade) :
    ∀ (rest : List AnOpenTrade) (i : Nat), (∀ o ∈ rest, o.Timestamp ≠ ts) →
      removeLoop stub ts all i rest = (none, stub) := by
  intro rest
  induction rest with
  | nil => intro i _; rfl
  | cons t rest ih =>
    intro i h
    have ht := h t (List.mem_cons_self t rest)
    rw [removeLoop, if_neg ht]
    exact ih (i + 1) (fun o ho => h o (List.mem_cons_of_mem t ho))

theorem removeLoop_found (stub : Stub) (ts : GoInt) (o : AnOpenTrade) (post : List AnOpenTrade)
    (ho : o.Timestamp = ts) :
    ∀ (mid pre : List AnOpenTrade), (∀ p ∈ mid, p.Timestamp ≠ ts) →
      removeLoop stub ts (pre ++ (mid ++ o :: post)) pre.length (mid ++ o :: post) =
        stub.PutState openTradesStr
          (Bytes.doc (encodeTrades { OpenTrades := pre ++ (mid ++ post) })) := by
  intro mid
  induction mid with
  | nil =>
    intro pre _
    simp only [List.nil_append]
    rw [removeLoop, if_pos ho]
    have hcut : (pre ++ o :: post).take pre.length ++ (pre ++ o :: post).drop (pre.length + 1)
        = pre ++ post := by simp
    simp only [hcut]
    exact PutState_eta stub _ _
  | cons t mid ih =>
    intro pre h
    have ht := h t (List.mem_cons_self t mid)
    have h2 := ih (pre ++ [t]) (fun p hp => h p (List.mem_cons_of_mem t hp))
    simp only [List.append_assoc, List.singleton_append, List.length_append,
      List.length_singleton] at h2
    simp only [List.cons_append]
    rw [removeLoop, if_neg ht]
    exact h2

theorem removeLoop_ok (stub : Stub) (ts : GoInt) (all : List AnOpenTrade)
    (hput : stub.putErr openTradesStr = none) :
    ∀ (rest : List AnOpenTrade) (i : Nat), (removeLoop stub ts all i rest).1 = none := by
  intro rest
  induction rest with
  | nil => intro i; rfl
  | cons t rest ih =>
    intro i
    by_cases ht : t.Timestamp = ts
    · rw [removeLoop, if_pos ht]
      simp only []
      rw [PutState_eta, PutState_ok stub _ _ hput]
    · rw [removeLoop, if_neg ht]
      exact ih (i + 1)

/-- C12 (removeOffer). With no argument, or with a first argument that does not parse as a
64-bit integer, `remove_trade` returns an error and leaves the ledger as it was. With a first
argument that parses, when the ledger serves the read and the write of the order book,
`remove_trade` returns success; the order book is then the previous one with the first offer
whose timestamp is the identifier cut out, all other offers as they were and in their order;
when no offer has that timestamp the ledger is left as it was, with no `PutState` call. -/
theorem remove_trade_removes (stub : Stub) (args : List String) :
    (args = [] →
      (remove_trade stub args).1.isSome = true ∧ (remove_trade stub args).2 = stub) ∧
    (∀ a rest, args = a :: rest → (ParseInt a).2 = false →
      (remove_trade stub args).1.isSome = true ∧ (remove_trade stub args).2 = stub) ∧
    (∀ a rest, args = a :: rest → (ParseInt a).2 = true →
      stub.getErr openTradesStr = none → stub.putErr openTradesStr = none →
      (remove_trade stub args).1 = none ∧
      (∀ pre o post, orderBook stub = pre ++ o :: post → o.Timestamp = (ParseInt a).1 →
        (∀ p ∈ pre, p.Timestamp ≠ (ParseInt a).1) →
        orderBook (remove_trade stub args).2 = pre ++ post) ∧
      ((∀ o ∈ orderBook stub, o.Timestamp ≠ (ParseInt a).1) →
        (remove_trade stub args).2 = stub)) := by
  refine ⟨?_, ?_, ?_⟩
  · intro h
    subst h
    simp [remove_trade]
  · intro a rest h hp
    subst h
    simp [remove_trade, hp]
  · intro a rest h hp hget hput
    subst h
    have hrt : remove_trade stub (a :: rest) =
        removeLoop stub (ParseInt a).1 (orderBook stub) 0 (orderBook stub) := by
      simp [remove_trade, hp, GetState_ok stub _ hget, orderBook]
    rw [hrt]
    have hnone : (∀ o ∈ orderBook stub, o.Timestamp ≠ (ParseInt a).1) →
        removeLoop stub (ParseInt a).1 (orderBook stub) 0 (orderBook stub) = (none, stub) :=
      removeLoop_none stub _ _ _ 0
    have hfound : ∀ pre o post, orderBook stub = pre ++ o :: post →
        o.Timestamp = (ParseInt a).1 → (∀ p ∈ pre, p.Timestamp ≠ (ParseInt a).1) →
        removeLoop stub (ParseInt a).1 (orderBook stub) 0 (orderBook stub) =
          stub.PutState openTradesStr (Bytes.doc (encodeTrades { OpenTrades := pre ++ post })) := by
      intro pre o post hsplit ho hpre
      have h := removeLoop_found stub (ParseInt a).1 o post ho pre [] hpre
      simp only [List.nil_append, List.length_nil] at h
      rw [hsplit]
      exact h
    refine ⟨?_, ?_, ?_⟩
    · exact removeLoop_ok stub _ _ hput _ 0
    · intro pre o post hsplit ho hpre
      rw [hfound pre o post hsplit ho hpre]
      exact orderBook_put stub _ hput
    · intro h
      rw [hnone h]


set_option maxRecDepth 1000000 in
/-- C12 at the example ledger, whose order book holds bob's offer with timestamp 1:
`remove_trade` of `1` empties the book, `remove_trade` of `2` leaves the ledger as it was,
and `remove_trade` of `x` is an error. -/
theorem remove_trade_removes_witness :
    orderBook exampleLedger = [] ++ bobsOffer :: [] ∧
    (ParseInt "1").2 = true ∧ bobsOffer.Timestamp = (ParseInt "1").1 ∧
    exampleLedger.getErr openTradesStr = none ∧ exampleLedger.putErr openTradesStr = none ∧
    (remove_trade exampleLedger ["1"]).1 = none ∧
    orderBook (remove_trade exampleLedger ["1"]).2 = [] ++ [] ∧
    (remove_trade exampleLedger ["x"]).1.isSome = true ∧
    (remove_trade exampleLedger ["x"]).2 = exampleLedger :=
  have h := remove_trade_removes exampleLedger ["1"]
  have hx := remove_trade_removes exampleLedger ["x"]
  have h1 := h.2.2 "1" [] rfl (by decide) rfl rfl
  have hx1 := hx.2.1 "x" [] rfl (by decide)
  ⟨by decide, by decide, by decide, rfl, rfl, h1.1,
    h1.2.1 [] bobsOffer [] (by decide) (by decide) (by simp), hx1.1, hx1.2⟩

theorem getElem?_getD (args : List String) (k : Nat) (h : k < args.length) :
    args[k]? = some (args.getD k "") := by
  simp [List.getD, List.getElem?_eq_getElem h]

theorem agreeOffDebug_put (stub stub1 : Stub) (key : String) (value : Bytes)
    (h : agreeOffDebug stub stub1) (hk : key = "_debug1" ∨ key = "_debug2") :
    agreeOffDebug stub (stub1.PutState key value).2 := by
  obtain ⟨h1, h2, h3⟩ := h
  refine ⟨by rw [PutState_getErr, h1], by rw [PutState_putErr, h2], ?_⟩
  intro k hk1 hk2
  have hne : k ≠ key := by
    rcases hk with rfl | rfl
    · exact hk1
    · exact hk2
  have : (stub1.PutState key value).2.state k = stub1.state k := by
    unfold Stub.PutState
    cases stub1.putErr key <;> simp [hne]
  rw [this, h3 k hk1 hk2]

theorem openLoop_eq (args : List String) (m : Nat) (hlen : args.length = 2 * m + 3)
    (hnum : ∀ k, 2 ≤ k → k < args.length → k % 2 = 0 → (Atoi (args.getD k "")).2 = true)
    (stub0 : Stub) :
    ∀ (d j fuel : Nat) (willing : List Description) (stub : Stub),
      j + d = m → d < fuel → agreeOffDebug stub0 stub →
      ∃ stub1, openLoop args fuel (3 + 2 * j) willing stub =
          some (none, willing ++ (List.range' j d).map (altOf args), stub1) ∧
        agreeOffDebug stub0 stub1 := by
  intro d
  induction d with
  | zero =>
    intro j fuel willing stub hj hf hag
    obtain ⟨f, rfl⟩ : ∃ f, fuel = f + 1 := ⟨fuel - 1, by omega⟩
    refine ⟨stub, ?_, hag⟩
    have hnot : ¬ (3 + 2 * j < args.length) := by omega
    simp [openLoop, hnot]
  | succ d ih =>
    intro j fuel willing stub hj hf hag
    obtain ⟨f, rfl⟩ : ∃ f, fuel = f + 1 := ⟨fuel - 1, by omega⟩
    have hlt : 3 + 2 * j < args.length := by omega
    have h1 : args[3 + 2 * j + 1]? = some (args.getD (4 + 2 * j) "") := by
      have : 3 + 2 * j + 1 = 4 + 2 * j := by omega
      rw [this]
      exact getElem?_getD args _ (by omega)
    have h0 : args[3 + 2 * j]? = some (args.getD (3 + 2 * j) "") :=
      getElem?_getD args _ hlt
    have hok : (Atoi (args.getD (4 + 2 * j) "")).2 = true :=
      hnum (4 + 2 * j) (by omega) (by omega) (by omega)
    obtain ⟨stub1, hrec, hag1⟩ := ih (j + 1) f
      (willing ++ [altOf args j])
      (stub.PutState "_debug2" (Bytes.doc (encodeDescription (altOf args j)))).2
      (by omega) (by omega) (agreeOffDebug_put stub0 stub _ _ hag (Or.inr rfl))
    refine ⟨stub1, ?_, hag1⟩
    have hidx : 3 + 2 * j + 1 + 1 = 3 + 2 * (j + 1) := by omega
    rw [openLoop, if_pos hlt, h1]
    simp only [hok, Bool.not_true, Bool.false_eq_true, if_false, h0, hidx]
    have hrec2 : openLoop args f (3 + 2 * (j + 1)) (willing ++ [altOf args j])
        (stub.PutState "_debug2" (Bytes.doc (encodeDescription (altOf args j)))).2 =
        some (none, willing ++ (List.range' j (d + 1)).map (altOf args), stub1) := by
      rw [hrec]
      simp [List.range'_succ]
    exact hrec2

theorem agreeOffDebug_bytesAt (stub stub1 : Stub) (h : agreeOffDebug stub stub1) :
    stub1.bytesAt openTradesStr = stub.bytesAt openTradesStr := by
  simp only [Stub.bytesAt]
  rw [h.2.2 openTradesStr (by decide) (by decide)]

/-- C13 (openTrade). For every argument list of odd length at least 5 whose quantity arguments
(the even positions from 2 on) are numeric strings, when the ledger serves the read and the
write of the order book, `open_trade` ends normally (no index outside the argument list) and
returns success; the order book is then the previous one with one offer appended: user
`args[0]`, the given timestamp, want `args[1]`, `args[2]`, and the `(n-3)/2 ≥ 1` alternatives
`args[3+2j]`, `args[4+2j]` in argument order. No condition on assets is involved. For every
argument list of length below 5 or of even length it returns an error and leaves the ledger
as it was. -/
theorem open_trade_appends (stub : Stub) (args : List String) (now : GoInt) :
    (5 ≤ args.length → args.length % 2 = 1 →
      (∀ k, 2 ≤ k → k < args.length → k % 2 = 0 → (Atoi (args.getD k "")).2 = true) →
      stub.getErr openTradesStr = none → stub.putErr openTradesStr = none →
      ∃ stub1, open_trade stub args now = some (none, stub1) ∧
        orderBook stub1 = orderBook stub ++ [offerOf args now] ∧
        (offerOf args now).Willing.length = (args.length - 3) / 2 ∧
        1 ≤ (args.length - 3) / 2) ∧
    (args.length < 5 ∨ args.length % 2 = 0 →
      ∃ e, open_trade stub args now = some (some e, stub)) := by
  constructor
  · intro h5 hodd hnum hget hput
    obtain ⟨m, hm⟩ : ∃ m, args.length = 2 * m + 3 := ⟨(args.length - 3) / 2, by omega⟩
    have hok2 : (Atoi (args.getD 2 "")).2 = true := hnum 2 (by omega) (by omega) (by omega)
    have hag0 : agreeOffDebug stub (stub.PutState "_debug1" (Bytes.doc (encodeTrade
        { User := args.getD 0 "", Timestamp := now,
          Want := { Description.zero with
            Color := args.getD 1 "", Size := (Atoi (args.getD 2 "")).1 },
          Willing := [] }))).2 :=
      agreeOffDebug_put stub stub _ _ ⟨rfl, rfl, fun _ _ _ => rfl⟩ (Or.inl rfl)
    obtain ⟨stub2, hloop, hag2⟩ := openLoop_eq args m hm hnum stub m 0 (args.length + 1) []
      _ (by omega) (by omega) hag0
    have hget2 : stub2.getErr openTradesStr = none := by rw [hag2.1]; exact hget
    have hput2 : stub2.putErr openTradesStr = none := by rw [hag2.2.1]; exact hput
    have hwill : (List.range' 0 m).map (altOf args) = (offerOf args now).Willing := by
      have : (args.length - 3) / 2 = m := by omega
      simp [offerOf, this, List.range_eq_range']
    refine ⟨(stub2.PutState openTradesStr
      (Bytes.doc (encodeTrades ⟨orderBook stub ++ [offerOf args now]⟩))).2, ?_, ?_, ?_, ?_⟩
    · have hn5 : ¬ args.length < 5 := by omega
      have hn2 : ¬ args.length % 2 = 0 := by omega
      rw [open_trade, if_neg hn5, if_neg hn2]
      simp only [hok2, Bool.not_true, Bool.false_eq_true, if_false]
      simp only [Nat.mul_zero, Nat.add_zero] at hloop
      rw [hloop]
      simp only [List.nil_append, hwill, GetState_ok stub2 _ hget2, unmarshalTrades,
        Option.isSome_none, Bool.false_eq_true, if_false]
      rw [agreeOffDebug_bytesAt stub stub2 hag2]
      have hbook : (match (stub.bytesAt openTradesStr).json with
          | some v => decodeTrades { OpenTrades := [] } v
          | none => { OpenTrades := [] }).OpenTrades = orderBook stub := rfl
      rw [hbook]
      simp only [PutState_ok stub2 _ _ hput2, Option.isSome_none, Bool.false_eq_true, if_false]
      rfl
    · exact orderBook_put stub2 _ hput2
    · simp [offerOf]
    · omega
  · intro h
    rcases h with h | h
    · exact ⟨_, by rw [open_trade, if_pos h]⟩
    · by_cases h5 : args.length < 5
      · exact ⟨_, by rw [open_trade, if_pos h5]⟩
      · exact ⟨_, by rw [open_trade, if_neg h5, if_pos h]⟩

set_option maxRecDepth 1000000 in
/-- C13 at the example ledger: alice's seven arguments append her offer with its two
alternatives behind bob's offer, although alice owns no asset; six arguments are an error. -/
theorem open_trade_appends_witness :
    5 ≤ alicesArgs.length ∧ alicesArgs.length % 2 = 1 ∧
    (∀ k, 2 ≤ k → k < alicesArgs.length → k % 2 = 0 →
      (Atoi (alicesArgs.getD k "")).2 = true) ∧
    exampleLedger.getErr openTradesStr = none ∧ exampleLedger.putErr openTradesStr = none ∧
    finds exampleLedger "alice" red16 = false ∧
    (offerOf alicesArgs ⟨5, by decide⟩).Willing =
      [red16, { Description.zero with Color := "green", Size := ⟨2, by decide⟩ }] ∧
    (∃ stub1, open_trade exampleLedger alicesArgs ⟨5, by decide⟩ = some (none, stub1) ∧
      orderBook stub1 = orderBook exampleLedger ++ [offerOf alicesArgs ⟨5, by decide⟩] ∧
      (offerOf alicesArgs ⟨5, by decide⟩).Willing.length = (alicesArgs.length - 3) / 2 ∧
      1 ≤ (alicesArgs.length - 3) / 2) ∧
    (∃ e, open_trade exampleLedger (alicesArgs.take 6) ⟨5, by decide⟩ =
      some (some e, exampleLedger)) :=
  have hnum : ∀ k, 2 ≤ k → k < alicesArgs.length → k % 2 = 0 →
      (Atoi (alicesArgs.getD k "")).2 = true := by
    intro k h1 h2 h3
    have h7 : alicesArgs.length = 7 := rfl
    rw [h7] at h2
    interval_cases k <;> first | (exact absurd h3 (by decide)) | decide
  ⟨by decide, by decide, hnum, rfl, rfl, by decide, by decide,
    (open_trade_appends exampleLedger alicesArgs ⟨5, by decide⟩).1 (by decide) (by decide)
      hnum rfl rfl,
    (open_trade_appends exampleLedger (alicesArgs.take 6) ⟨5, by decide⟩).2
      (Or.inr (by decide))⟩

set_option maxRecDepth 1000000 in
/-- C14 at its failing input: on a ledger that refuses the write of the asset index, `Delete`
of `d1` returns success although the index still lists `d1` and the record is gone, also
through `Invoke`; and `init_dendata` for `d2` returns success although the index does not
list `d2` and the record is stored. -/
theorem index_write_failure_not_reported :
    indexWriteRefused.putErr dendataIndexStr = some "ledger unavailable" ∧
    indexOf indexWriteRefused = ["d1"] ∧
    (Delete indexWriteRefused ["d1"]).1 = none ∧
    ((Delete indexWriteRefused ["d1"]).2.state "d1").isSome = false ∧
    indexOf (Delete indexWriteRefused ["d1"]).2 = ["d1"] ∧
    (Invoke indexWriteRefused "delete" ["d1"]).map (fun r => (r.1, indexOf r.2)) =
      some (none, ["d1"]) ∧
    (init_dendata indexWriteRefused secondArgs).1 = none ∧
    ((init_dendata indexWriteRefused secondArgs).2.state "d2").isSome = true ∧
    indexOf (init_dendata indexWriteRefused secondArgs).2 = ["d1"] := by
  refine ⟨rfl, ?_, ?_, ?_, ?_, ?_, ?_, ?_, ?_⟩ <;> decide

set_option maxRecDepth 1000000 in
/-- C15 at its failing input: the index lists `m1`, whose record matches bob's alternative
red, 16, but the ledger refuses the read of the index; `findDendata4Trade` returns the read
error, and `cleanTrades` removes both alternatives and the offer, writes the emptied order
book and returns success. -/
theorem sweep_prunes_on_read_failure :
    orderBook indexReadRefused = [bobsOffer] ∧
    indexOf indexReadRefused = ["m1"] ∧
    matchTest (recordAt indexReadRefused "m1") "bob" red16.Color red16.Size = true ∧
    findDendata4Trade indexReadRefused "bob" red16.Color red16.Size =
      (Dendata.zero, some "Failed to get dendata index") ∧
    (cleanTrades indexReadRefused).map (fun r => (r.1, orderBook r.2, r.2.puts)) =
      some (none, [], ["_opentrades"]) := by
  refine ⟨?_, ?_, ?_, ?_, ?_⟩ <;> decide

/-- C16 (sweep termination). From every counter position within the list, the inner and the
outer loop of `cleanTrades` end normally within as many rounds as entries remain from the
counter on, plus the closing test: every round leaves one entry fewer between the counter and
the end of the list, and no round reads outside the list. So `cleanTrades`, which allows each
loop one round more than its list has entries, ends normally on every ledger. -/
theorem cleanTrades_terminates :
    (∀ (stub : Stub) (user : String) (willing : List Description) (x : Nat) (didWork : Bool)
        (fuel : Nat), x ≤ willing.length → willing.length - x < fuel →
      ∃ r, willingLoop stub user fuel willing (x : Int) didWork = some r ∧
        r.1.length ≤ willing.length) ∧
    (∀ (stub : Stub) (trades : List AnOpenTrade) (i : Nat) (didWork : Bool) (fuel : Nat),
        i ≤ trades.length → trades.length - i < fuel →
      ∃ r, tradesLoop stub fuel trades (i : Int) didWork = some r ∧
        r.1.length ≤ trades.length) ∧
    (∀ stub : Stub, ∃ r, cleanTrades stub = some r) := by
  refine ⟨?_, ?_, cleanTrades_total⟩
  · intro stub user willing x didWork fuel hx hf
    have h := willingLoop_eq stub user (willing.drop x) (willing.take x) fuel didWork
      (by rw [List.length_drop]; exact hf)
    rw [List.take_append_drop, List.length_take, Nat.min_eq_left hx] at h
    refine ⟨_, h, ?_⟩
    have h1 : ((willing.drop x).filter (finds stub user)).length ≤ (willing.drop x).length :=
      List.length_filter_le _ _
    simp only [List.length_append, List.length_take, List.length_drop] at h1 ⊢
    omega
  · intro stub trades i didWork fuel hi hf
    have h := tradesLoop_eq stub (trades.drop i) (trades.take i) fuel didWork
      (by rw [List.length_drop]; exact hf)
    rw [List.take_append_drop, List.length_take, Nat.min_eq_left hi] at h
    refine ⟨_, h, ?_⟩
    have h1 : (sweepReference stub (trades.drop i)).length ≤ (trades.drop i).length := by
      unfold sweepReference
      exact le_trans (List.length_filter_le _ _) (by rw [List.length_map])
    simp only [List.length_append, List.length_take, List.length_drop] at h1 ⊢
    omega

set_option maxRecDepth 1000000 in
/-- C16 at the example ledger: the inner loop on bob's two alternatives and the outer loop on
bob's offer end normally within three and two rounds, also on an offer whose willing list is
empty from the start. -/
theorem cleanTrades_terminates_witness :
    (∃ r, willingLoop exampleLedger "bob" 3 [red16, blue1] ((0 : Nat) : Int) false = some r ∧
      r.1.length ≤ [red16, blue1].length) ∧
    (∃ r, tradesLoop exampleLedger 3 [bobsOffer, { bobsOffer with Willing := [] }]
        ((0 : Nat) : Int) false = some r ∧
      r.1.length ≤ [bobsOffer, { bobsOffer with Willing := [] }].length) ∧
    (∃ r, cleanTrades exampleLedger = some r) :=
  ⟨cleanTrades_terminates.1 exampleLedger "bob" [red16, blue1] 0 false 3 (by decide) (by decide),
    cleanTrades_terminates.2.1 exampleLedger [bobsOffer, { bobsOffer with Willing := [] }] 0
      false 3 (by decide) (by decide),
    cleanTrades_terminates.2.2 exampleLedger⟩

theorem sweepReference_ne_iff (stub : Stub) (book : List AnOpenTrade) :
    sweepReference stub book ≠ book ↔ book.any (offerTouched stub) = true := by
  constructor
  · intro hne
    cases hany : book.any (offerTouched stub) with
    | true => rfl
    | false => exact absurd (sweepReference_eq_self stub book hany) hne
  · intro hany heq
    obtain ⟨o, hmem, hstale⟩ := (any_touched_iff stub book).mp hany
    rw [← heq] at hmem
    exact not_stale_of_mem_sweepReference stub book o hmem hstale

/-- C4 (write only on mutation). `cleanTrades` always ends normally. The sweep changes the
order book it has read exactly when some offer has an alternative for which no asset is found
or an empty willing list. If it has read the order book and the swept book differs from the
book read, it makes exactly one `PutState` call, on `_opentrades`, with the swept book as
value, and touches nothing else; when the ledger accepts that write the stored order book is
the swept one and differs from the one before. Otherwise (the read failed, or the sweep
removed nothing) it makes no `PutState` call and leaves the ledger as it was. -/
theorem cleanTrades_write_only_on_mutation (stub : Stub) :
    ∃ r, cleanTrades stub = some r ∧
      ((stub.getErr openTradesStr = none ∧
          sweepReference stub (orderBook stub) ≠ orderBook stub) →
        r = stub.PutState openTradesStr
          (Bytes.doc (encodeTrades { OpenTrades := sweepReference stub (orderBook stub) })) ∧
        r.2.puts = stub.puts ++ [openTradesStr] ∧
        (stub.putErr openTradesStr = none →
          orderBook r.2 = sweepReference stub (orderBook stub) ∧
          orderBook r.2 ≠ orderBook stub)) ∧
      (¬ (stub.getErr openTradesStr = none ∧
          sweepReference stub (orderBook stub) ≠ orderBook stub) →
        r.2 = stub ∧ orderBook r.2 = orderBook stub ∧ r.2.puts = stub.puts) ∧
      (sweepReference stub (orderBook stub) ≠ orderBook stub ↔
        ∃ o ∈ orderBook stub, offerStale stub o) := by
  have hiff : sweepReference stub (orderBook stub) ≠ orderBook stub ↔
      ∃ o ∈ orderBook stub, offerStale stub o := by
    rw [sweepReference_ne_iff, any_touched_iff]
  cases hget : stub.getErr openTradesStr with
  | some e =>
    refine ⟨(some "Failed to get opentrades", stub), ?_, ?_, ?_, hiff⟩
    · simp [cleanTrades, Stub.GetState, hget]
    · rintro ⟨h, _⟩; cases h
    · intro _; exact ⟨rfl, rfl, rfl⟩
  | none =>
    rw [cleanTrades_eq stub hget]
    cases hany : (orderBook stub).any (offerTouched stub) with
    | false =>
      refine ⟨(none, stub), by simp, ?_, ?_, hiff⟩
      · rintro ⟨_, h⟩
        rw [sweepReference_ne_iff, hany] at h
        cases h
      · intro _; exact ⟨rfl, rfl, rfl⟩
    | true =>
      have hne : sweepReference stub (orderBook stub) ≠ orderBook stub :=
        (sweepReference_ne_iff stub _).mpr hany
      refine ⟨stub.PutState openTradesStr (Bytes.doc
        (encodeTrades { OpenTrades := sweepReference stub (orderBook stub) })), by simp,
        ?_, ?_, hiff⟩
      · intro _
        refine ⟨rfl, PutState_puts stub _ _, ?_⟩
        intro hput
        have hb := orderBook_put stub (sweepReference stub (orderBook stub)) hput
        exact ⟨hb, by rw [hb]; exact hne⟩
      · intro h
        exact absurd ⟨rfl, hne⟩ h

set_option maxRecDepth 1000000 in
/-- C4 at two ledgers. On the example ledger the sweep removes blue, 1 from bob's offer: one
`PutState` call, on `_opentrades`, and the stored book holds the offer with red, 16 only. On
the swept ledger nothing is to remove: no call, and the ledger stays as it was. -/
theorem cleanTrades_write_only_on_mutation_witness :
    (exampleLedger.getErr openTradesStr = none ∧
      sweepReference exampleLedger (orderBook exampleLedger) ≠ orderBook exampleLedger) ∧
    exampleLedger.putErr openTradesStr = none ∧
    (cleanTrades exampleLedger).map (fun r => (r.1, orderBook r.2, r.2.puts)) =
      some (none, [{ bobsOffer with Willing := [red16] }], ["_opentrades"]) ∧
    ¬ (sweptLedger.getErr openTradesStr = none ∧
      sweepReference sweptLedger (orderBook sweptLedger) ≠ orderBook sweptLedger) ∧
    (cleanTrades sweptLedger).map (fun r => (r.1, orderBook r.2, r.2.puts)) =
      some (none, [{ bobsOffer with Willing := [red16] }], []) ∧
    (∃ r, cleanTrades exampleLedger = some r ∧
      r = exampleLedger.PutState openTradesStr (Bytes.doc (encodeTrades
        { OpenTrades := sweepReference exampleLedger (orderBook exampleLedger) })) ∧
      r.2.puts = exampleLedger.puts ++ [openTradesStr] ∧
      orderBook r.2 = sweepReference exampleLedger (orderBook exampleLedger) ∧
      orderBook r.2 ≠ orderBook exampleLedger) ∧
    (∃ r, cleanTrades sweptLedger = some r ∧ r.2 = sweptLedger) :=
  have hex : exampleLedger.getErr openTradesStr = none ∧
      sweepReference exampleLedger (orderBook exampleLedger) ≠ orderBook exampleLedger :=
    ⟨rfl, by decide⟩
  have hsw : ¬ (sweptLedger.getErr openTradesStr = none ∧
      sweepReference sweptLedger (orderBook sweptLedger) ≠ orderBook sweptLedger) :=
    fun h => h.2 (by decide)
  ⟨hex, rfl, by decide, hsw, by decide,
    (cleanTrades_write_only_on_mutation exampleLedger).elim fun r h =>
      ⟨r, h.1, (h.2.1 hex).1, (h.2.1 hex).2.1, ((h.2.1 hex).2.2 rfl).1,
        ((h.2.1 hex).2.2 rfl).2⟩,
    (cleanTrades_write_only_on_mutation sweptLedger).elim fun r h =>
      ⟨r, h.1, (h.2.2.1 hsw).1⟩⟩

end Chaincode
